import Mathlib

/-!
Verification development for the `ts-modify-imports` tool (`src/bin/index.js`).

The tool rewrites the import statements of one TypeScript source file so that
symbols used only as types are imported through `import type` declarations.
The pipeline is:

* `collectUsageOfImportSymbols` — walks the syntax tree once and records, in the
  global `Imports` map, for every named-import symbol whether it is still
  unreferenced (JS `null`), referenced only in type positions (JS `false`), or
  referenced in a value position (JS `true`);
* `modifyImportsByUsage` — walks the top-level statements, filling
  `ImportDeclarationsByModuleSpecifier` (which declaration shapes exist per
  module reference) and `ImportsByModuleSpecifier` (per module reference, the
  accumulated `runtime` and `types` symbol buckets), then runs the transformer;
* the transformer — rewrites each qualifying import declaration in the AST:
  type-only declarations are dropped, runtime declarations are rewritten to the
  accumulated runtime bucket, with a synthesized type-only declaration in front
  when needed;
* the replacement pass — prints every transformed import declaration that still
  links back to an original, records `target`/`replacement` text pairs, and
  applies them to the whole file text by first-occurrence substitution.

The embedding below models the syntax tree shallowly: identifiers carry the
result of `typeChecker.getSymbolAtLocation` (an optional symbol identity) and
of `ts.isTypeNode(node.parent)` (a boolean) directly; import specifiers carry
their bound symbol.  JavaScript `Map`s become association lists, a thrown
`TypeError` becomes `Except.error ()`, and `String.prototype.replace` with a
string pattern becomes first-occurrence substitution on character lists.
-/

namespace TSMI

/-- Classification value stored in the `Imports` map: `unknown` models the
JavaScript `null` written when a binding of a regular import is registered,
`typeOnly` models `false` (type-only declaration or type-position reference),
and `valueUsed` models `true` (value-position reference). -/
inductive Usage where
  | unknown
  | typeOnly
  | valueUsed
deriving DecidableEq

/-- A checker symbol: its identity (used as map key) and its `escapedName`. -/
structure Symbol where
  id : Nat
  escapedName : String
deriving DecidableEq

/-- An import specifier of a named-import clause (`propertyName as name`,
with `propertyName` absent for an unaliased specifier), together with the
symbol the checker binds for it (`element.symbol`, which is also what
`typeChecker.getSymbolAtLocation(element.name)` returns). -/
structure ImportSpecifier where
  propertyName : Option String
  name : String
  symbol : Symbol
deriving DecidableEq

/-- The `namedBindings` of an import clause: either named imports or a
namespace import. -/
inductive NamedBindings where
  | namedImports (elements : List ImportSpecifier)
  | namespaceImport (name : String)
deriving DecidableEq

/-- An import clause: `isTypeOnly`, the optional default-import `name`, and the
optional named bindings. -/
structure ImportClause where
  isTypeOnly : Bool
  name : Option String
  namedBindings : Option NamedBindings
deriving DecidableEq

/-- Syntax nodes, as far as the tool inspects them.  An import declaration
carries its optional import clause, the text of its module specifier
(`moduleSpecifier.getText(sourceFile)`, quotes included) and its own source
text (`getText(sourceFile)`).  An identifier carries the symbol it resolves to
(`none` when `getSymbolAtLocation` returns `undefined`) and whether its parent
is a type node.  Every other node only matters through its children. -/
inductive Node where
  | importDecl (importClause : Option ImportClause) (moduleSpecifier : String) (text : String)
  | ident (symbol : Option Nat) (parentIsTypeNode : Bool)
  | other (children : List Node)

/-- A source file: its top-level statements and its whole text
(`sourceFile.getText()`). -/
structure SourceFile where
  statements : List Node
  text : String

/-! ### JavaScript `Map` as an association list -/

/-- Model of `Map.prototype.set`: update the value in place if the key is present,
otherwise append a new entry. -/
def aset {κ α : Type} [DecidableEq κ] (m : List (κ × α)) (k : κ) (v : α) : List (κ × α) :=
  if m.any (fun p => decide (p.1 = k)) then
    m.map (fun p => if p.1 = k then (k, v) else p)
  else m ++ [(k, v)]

/-- Model of `Map.prototype.get`: the value at the key, or `none` (JS `undefined`). -/
def aget {κ α : Type} [DecidableEq κ] (m : List (κ × α)) (k : κ) : Option α :=
  (m.find? (fun p => decide (p.1 = k))).map (fun p => p.2)

/-- Model of `Map.prototype.has`. -/
def ahas {κ α : Type} [DecidableEq κ] (m : List (κ × α)) (k : κ) : Bool :=
  (aget m k).isSome

/-- The `Imports` map of the source: symbol identity to classification. -/
abbrev ImportsMap := List (Nat × Usage)

/-! ### The shared import-statement guards

All three passes start their import-declaration handling with the same three
lines:

```
if (node.importClause && !node.importClause.namedBindings) return
if (ts.isNamedImports(node.importClause.namedBindings) == false) return
if (node.importClause.name) return
```

When the declaration has no import clause at all (a bare `import "m"`), the
first line does not return (the clause is falsy), and the second line reads
`.namedBindings` of `undefined`, throwing a `TypeError`. -/

/-- Outcome of the three guard lines. -/
inductive GuardResult where
  | typeError
  | skip
  | proceed (clause : ImportClause) (elements : List ImportSpecifier)
deriving DecidableEq

/-- The three guard lines, evaluated in source order. -/
def importGuards : Option ImportClause → GuardResult
  | none => .typeError
  | some c =>
    match c.namedBindings with
    | none => .skip
    | some (.namespaceImport _) => .skip
    | some (.namedImports els) =>
      if c.name.isSome then .skip else .proceed c els

/-! ### Pass 1: `collectUsageOfImportSymbols` -/

mutual

/-- One step of `collectUsageOfImportSymbols` on a node, threading the
`Imports` map.  Import declarations register their named bindings (`false` for
a type-only clause, `null` otherwise) and are terminal; identifiers that
resolve to a tracked symbol are reclassified unless already `true`; every
other node recurses into its children. -/
def collectNode : Node → ImportsMap → Except Unit ImportsMap
  | .importDecl clause _ _, imports =>
    match importGuards clause with
    | .typeError => .error ()
    | .skip => .ok imports
    | .proceed c els =>
      .ok (els.foldl (fun m el =>
        aset m el.symbol.id (if c.isTypeOnly then Usage.typeOnly else Usage.unknown)) imports)
  | .ident sym parentIsTypeNode, imports =>
    .ok (match sym with
      | none => imports
      | some s =>
        match aget imports s with
        | none => imports
        | some result =>
          if result ≠ Usage.valueUsed then
            aset imports s (if parentIsTypeNode then Usage.typeOnly else Usage.valueUsed)
          else imports)
  | .other children, imports => collectList children imports

/-- The `forEachChild` loop over a list of nodes, propagating a thrown `TypeError`. -/
def collectList : List Node → ImportsMap → Except Unit ImportsMap
  | [], imports => .ok imports
  | n :: rest, imports =>
    match collectNode n imports with
    | .error e => .error e
    | .ok m => collectList rest m

end

/-! ### Pass 2: the partitioning half of `modifyImportsByUsage` -/

/-- A `ModuleImportBucket`: the accumulated `runtime` and `types` symbol
sequences stored in `ImportsByModuleSpecifier` for one module reference. -/
structure Buckets where
  runtime : List Symbol
  types : List Symbol
deriving DecidableEq

/-- The two global maps filled by `modifyImportsByUsage` before the transform:
`ImportDeclarationsByModuleSpecifier` (keys `mod ++ "-runtime"` and
`mod ++ "-types"`, always mapped to `true`) and `ImportsByModuleSpecifier`. -/
structure PartitionState where
  importDecls : List (String × Bool)
  importsBySpec : List (String × Buckets)

/-- The element loop of `modifyImportsByUsage`: push `element.symbol` onto
`runtime` when `Imports.get(element.symbol)` is truthy (that is, `true`), onto
`types` otherwise (`false`, `null`, and `undefined` are all falsy). -/
def partitionElements (imports : ImportsMap) (els : List ImportSpecifier) :
    List Symbol × List Symbol :=
  els.foldl (fun rt el =>
    if aget imports el.symbol.id = some Usage.valueUsed then (rt.1 ++ [el.symbol], rt.2)
    else (rt.1, rt.2 ++ [el.symbol])) ([], [])

/-- One step of the statement loop of `modifyImportsByUsage`: non-import
statements are ignored; qualifying import declarations record their presence
key and merge their partitioned elements into the module's buckets. -/
def partitionStmt (imports : ImportsMap) (st : PartitionState) : Node → Except Unit PartitionState
  | .importDecl clause mod _ =>
    match importGuards clause with
    | .typeError => .error ()
    | .skip => .ok st
    | .proceed c els =>
      let decls :=
        if c.isTypeOnly then aset st.importDecls (mod ++ "-types") true
        else aset st.importDecls (mod ++ "-runtime") true
      let rt := partitionElements imports els
      let specs :=
        match aget st.importsBySpec mod with
        | some b => aset st.importsBySpec mod ⟨b.runtime ++ rt.1, b.types ++ rt.2⟩
        | none => aset st.importsBySpec mod ⟨rt.1, rt.2⟩
      .ok ⟨decls, specs⟩
  | .ident _ _ => .ok st
  | .other _ => .ok st

/-- The `sourceFile.statements.forEach` loop, propagating a thrown `TypeError`. -/
def partitionList (imports : ImportsMap) : List Node → PartitionState → Except Unit PartitionState
  | [], st => .ok st
  | n :: rest, st =>
    match partitionStmt imports st n with
    | .error e => .error e
    | .ok st' => partitionList imports rest st'

/-! ### Pass 3: the transformer -/

/-- A rendered import specifier of a rewritten or synthesized declaration
(`factory.createImportSpecifier(undefined, identifier)` produces one with no
`propertyName`). -/
structure Spec where
  propertyName : Option String
  name : String
deriving DecidableEq

/-- Transformed nodes.  A transformed import declaration records its
`isTypeOnly` flag, default name, specifiers, module specifier text, and the
`original` node the factory linked it to (`none` for a declaration synthesized
with `createImportDeclaration`). -/
inductive TNode where
  | importDecl (isTypeOnly : Bool) (name : Option String) (specs : List Spec)
      (moduleSpecifier : String) (original : Option Node)
  | ident (symbol : Option Nat) (parentIsTypeNode : Bool)
  | other (children : List TNode)

mutual

/-- The transformer's `visit` on one node.  Its result is the list of nodes
spliced into the parent: `[]` models `return undefined` (the node is removed),
a two-element list models returning `[typeDecl, updatedImportDecl]`.  For a
non-type-only declaration with an empty runtime bucket the statement is either
dropped (a type-only declaration exists elsewhere) or rewritten in place into a
type-only declaration; with a non-empty runtime bucket it is rewritten to the
accumulated runtime symbols, preceded by a synthesized type-only declaration
when no type-only declaration exists and `types` is non-empty.  Type-only
declarations are always removed.  Reading `importData.runtime` when
`ImportsByModuleSpecifier` has no entry for the module is the JS `TypeError`
on `undefined`. -/
def visitNode (pst : PartitionState) : Node → Except Unit (List TNode)
  | .importDecl clause mod text =>
    match importGuards clause with
    | .typeError => .error ()
    | .skip => .ok []
    | .proceed c _els =>
      let typeOnly := c.isTypeOnly
      let importData? := aget pst.importsBySpec mod
      let keySuffix := if typeOnly then "-runtime" else "-types"
      let importDeclsKey := mod ++ keySuffix
      let shouldCreateAlternate := !(ahas pst.importDecls importDeclsKey)
      if typeOnly then
        -- source: "TODO: handle existing import type imports / for testing,
        -- removing import type imports" — always `return undefined`
        .ok []
      else
        match importData? with
        | none => .error ()
        | some importData =>
          if importData.runtime.length = 0 then
            if shouldCreateAlternate = false then .ok []
            else
              let specifiers := importData.types.map (fun sy => Spec.mk none sy.escapedName)
              .ok [TNode.importDecl true c.name specifiers mod
                (some (Node.importDecl clause mod text))]
          else
            let specifiers := importData.runtime.map (fun sy => Spec.mk none sy.escapedName)
            let updatedImportDecl := TNode.importDecl c.isTypeOnly c.name specifiers mod
                (some (Node.importDecl clause mod text))
            if ahas pst.importDecls importDeclsKey = false ∧ importData.types.length ≠ 0 then
              let specifiers2 := importData.types.map (fun sy => Spec.mk none sy.escapedName)
              .ok [TNode.importDecl true none specifiers2 mod none, updatedImportDecl]
            else .ok [updatedImportDecl]
  | .ident sym pt => .ok [TNode.ident sym pt]
  | .other cs =>
    match visitTList pst cs with
    | .error e => .error e
    | .ok ts => .ok [TNode.other ts]

/-- The `visitNodes` loop over children: visit each node, splice the results, and drop
removed nodes. -/
def visitTList (pst : PartitionState) : List Node → Except Unit (List TNode)
  | [] => .ok []
  | n :: rest =>
    match visitNode pst n with
    | .error e => .error e
    | .ok ts =>
      match visitTList pst rest with
      | .error e => .error e
      | .ok rest' => .ok (ts ++ rest')

end

/-! ### Pass 4: printing and the replacement loop -/

/-- Rendering of one import specifier by the TypeScript printer. -/
def printSpec : Spec → String
  | ⟨some p, n⟩ => p ++ " as " ++ n
  | ⟨none, n⟩ => n

/-- Rendering of an import declaration of the shapes the tool prints:
`import type? name,? \x7b specs \x7d from mod;`.  The module specifier is
printed as its original literal text. -/
def printImport (isTypeOnly : Bool) (name : Option String) (specs : List Spec)
    (mod : String) : String :=
  "import " ++ (if isTypeOnly then "type " else "")
    ++ (match name with
        | some nm => nm ++ ", "
        | none => "")
    ++ (if specs.isEmpty then "\x7b\x7d"
        else "\x7b " ++ String.intercalate ", " (specs.map printSpec) ++ " \x7d")
    ++ " from " ++ mod ++ ";"

/-- The specifiers of an original import clause, as the printer renders them
(aliases kept). -/
def clauseSpecs (c : ImportClause) : List Spec :=
  match c.namedBindings with
  | some (.namedImports els) => els.map (fun el => Spec.mk el.propertyName el.name)
  | _ => []

/-- Rendering by `printer.printNode` of an original import declaration node. -/
def printNodeImport : Node → String
  | .importDecl (some c) mod _ => printImport c.isTypeOnly c.name (clauseSpecs c) mod
  | _ => ""

/-- Model of `node.getText(sourceFile)`: the node's source text. -/
def nodeGetText : Node → String
  | .importDecl _ _ text => text
  | _ => ""

/-- Whether `pat` is a prefix of `s`. -/
def leadsWith : List Char → List Char → Bool
  | [], _ => true
  | _ :: _, [] => false
  | p :: ps, c :: cs => p = c && leadsWith ps cs

/-- JavaScript `String.prototype.replace` with a string pattern: replace the
first occurrence of `pat` in `s` by `rep`; if `pat` does not occur, return `s`
unchanged (an empty pattern matches at the start). -/
def listReplaceFirst (s pat rep : List Char) : List Char :=
  match s with
  | [] => if pat.isEmpty then rep else []
  | c :: cs =>
    if leadsWith pat (c :: cs) then rep ++ (c :: cs).drop pat.length
    else c :: listReplaceFirst cs pat rep

/-- The `replace` operation lifted to `String`. -/
def sReplaceFirst (s pat rep : String) : String :=
  ⟨listReplaceFirst s.data pat.data rep.data⟩

/-- Whether `pat` occurs as a contiguous substring of `s`. -/
def occursIn (pat s : List Char) : Bool :=
  match s with
  | [] => pat.isEmpty
  | c :: cs => leadsWith pat (c :: cs) || occursIn pat cs

/-- The `occursIn` test lifted to `String`. -/
def sOccursIn (pat s : String) : Bool :=
  occursIn pat.data s.data

/-- A `RewriteEdit`: `o.target` is sought in the whole file text,
`o.replacement` substituted for its first occurrence. -/
structure Replacement where
  target : String
  replacement : String
deriving DecidableEq

/-- Model of the call `n.replace` on a semicolon: strip the first semicolon. -/
def stripSemi (s : String) : String := sReplaceFirst s ";" ""

/-- One step of the replacement loop over the transformed top-level
statements, threading `(replacements, storedLines)`.  Non-import statements
are skipped.  An import declaration whose original text equals its printed
text is skipped; otherwise its (possibly semicolon-stripped) text is buffered,
and when the node links back to an original whose text still differs, the
buffer is flushed into a recorded replacement whose target is the printed
original with its first semicolon stripped. -/
def applyStep (semicolon : Bool) (st : List Replacement × List String) (node : TNode) :
    List Replacement × List String :=
  match node with
  | .importDecl ty nm specs mod orig? =>
    let n := printImport ty nm specs mod
    (match orig? with
     | some o =>
       if nodeGetText o = n then st
       else
         let n' := if semicolon then n else stripSemi n
         let stored := st.2 ++ [n']
         if nodeGetText o ≠ n' then
           (st.1 ++ [⟨stripSemi (printNodeImport o), String.intercalate "\n" stored⟩], [])
         else (st.1, stored)
     | none =>
       let n' := if semicolon then n else stripSemi n
       (st.1, st.2 ++ [n']))
  | .ident _ _ => st
  | .other _ => st

/-- The final substitution loop: apply every recorded replacement to the whole
file text, in order, each by first-occurrence substitution. -/
def applyReplacements (src : String) (reps : List Replacement) : String :=
  reps.foldl (fun s r => sReplaceFirst s r.target r.replacement) src

/-- The whole pipeline on one source file, with the `--semicolon` flag:
collect usage, partition, transform, record replacements, and substitute them
into the file text.  Returns the written file text and the recorded
replacement list, or `Except.error ()` when the run aborts with a thrown
`TypeError`. -/
def run (semicolon : Bool) (sf : SourceFile) : Except Unit (String × List Replacement) :=
  match collectList sf.statements [] with
  | .error e => .error e
  | .ok imports =>
    match partitionList imports sf.statements ⟨[], []⟩ with
    | .error e => .error e
    | .ok pst =>
      match visitTList pst sf.statements with
      | .error e => .error e
      | .ok ts =>
        let reps := (ts.foldl (applyStep semicolon) ([], [])).1
        .ok (applyReplacements sf.text reps, reps)

/-! ### Concrete source files used in the theorems

The trees mirror real TypeScript files; comments and usage statements appear
only in the file text, while the statement nodes record the identifier
references (symbol identity and type-position flag) the checker would
resolve. -/

/-- A file with `import type \x7b Baz \x7d from "m"` followed by a type-position use of
`Baz` — scenario B of the design: a type-only import with no runtime sibling. -/
def fileTypeOnly : SourceFile :=
  { statements := [
      Node.importDecl (some ⟨true, none, some (.namedImports [⟨none, "Baz", ⟨1, "Baz"⟩⟩])⟩)
        "\"m\"" "import type \x7b Baz \x7d from \"m\"",
      Node.other [Node.ident (some 1) true]],
    text := "import type \x7b Baz \x7d from \"m\"\nlet x: Baz\n" }

/-- A file with `import \x7b Foo, Bar \x7d from "m"` where `Foo` is called and `Bar` is
used only in a type annotation — scenario A of the design. -/
def fileScenarioA : SourceFile :=
  { statements := [
      Node.importDecl (some ⟨false, none, some (.namedImports
        [⟨none, "Foo", ⟨1, "Foo"⟩⟩, ⟨none, "Bar", ⟨2, "Bar"⟩⟩])⟩)
        "\"m\"" "import \x7b Foo, Bar \x7d from \"m\"",
      Node.other [Node.ident (some 1) false],
      Node.other [Node.ident (some 2) true]],
    text := "import \x7b Foo, Bar \x7d from \"m\"\nFoo()\nlet x: Bar\n" }

/-- A bare side-effect import `import "m"`: an import declaration carrying
no import clause at all. -/
def fileBareImport : SourceFile :=
  { statements := [Node.importDecl none "\"m\"" "import \"m\""],
    text := "import \"m\"\n" }

/-- A file whose imports are all of unsupported shape: a default import, a
namespace import, and a default-plus-named import. -/
def fileUnsupported : SourceFile :=
  { statements := [
      Node.importDecl (some ⟨false, some "D", none⟩) "\"a\"" "import D from \"a\"",
      Node.importDecl (some ⟨false, none, some (.namespaceImport "ns")⟩)
        "\"b\"" "import * as ns from \"b\"",
      Node.importDecl (some ⟨false, some "E", some (.namedImports [⟨none, "F", ⟨3, "F"⟩⟩])⟩)
        "\"c\"" "import E, \x7b F \x7d from \"c\"",
      Node.other [Node.ident (some 9) false]],
    text := "import D from \"a\"\nimport * as ns from \"b\"\nimport E, \x7b F \x7d from \"c\"\nD(); ns.x(); E()\n" }

/-- A file whose leading comment contains, verbatim, the text of the import
declaration that gets rewritten. -/
def fileCollision : SourceFile :=
  { statements := [
      Node.importDecl (some ⟨false, none, some (.namedImports
        [⟨none, "A", ⟨1, "A"⟩⟩, ⟨none, "B", ⟨2, "B"⟩⟩])⟩)
        "\"m\"" "import \x7b A, B \x7d from \"m\"",
      Node.other [Node.ident (some 1) false],
      Node.other [Node.ident (some 2) true]],
    text := "// import \x7b A, B \x7d from \"m\"\nimport \x7b A, B \x7d from \"m\"\nA()\nlet x: B\n" }

/-- Two runtime import declarations for the same module, each binding one
value-used symbol. -/
def fileDup : SourceFile :=
  { statements := [
      Node.importDecl (some ⟨false, none, some (.namedImports [⟨none, "A", ⟨1, "A"⟩⟩])⟩)
        "\"m\"" "import \x7b A \x7d from \"m\"",
      Node.importDecl (some ⟨false, none, some (.namedImports [⟨none, "B", ⟨2, "B"⟩⟩])⟩)
        "\"m\"" "import \x7b B \x7d from \"m\"",
      Node.other [Node.ident (some 1) false],
      Node.other [Node.ident (some 2) false]],
    text := "import \x7b A \x7d from \"m\"\nimport \x7b B \x7d from \"m\"\nA()\nB()\n" }

/-- A file with `import \x7b a as b, c as d \x7d from "m"` where `b` is called and `d` is
used only as a type: both specifiers carry a property-name alias. -/
def fileAlias : SourceFile :=
  { statements := [
      Node.importDecl (some ⟨false, none, some (.namedImports
        [⟨some "a", "b", ⟨1, "b"⟩⟩, ⟨some "c", "d", ⟨2, "d"⟩⟩])⟩)
        "\"m\"" "import \x7b a as b, c as d \x7d from \"m\"",
      Node.other [Node.ident (some 1) false],
      Node.other [Node.ident (some 2) true]],
    text := "import \x7b a as b, c as d \x7d from \"m\"\nb()\nlet x: d\n" }

/-- An already maximally split file in the printer's own formatting: one
type-only import carrying the type-used symbol and one runtime import carrying
the value-used symbol. -/
def fileCanonical : SourceFile :=
  { statements := [
      Node.importDecl (some ⟨true, none, some (.namedImports [⟨none, "T", ⟨2, "T"⟩⟩])⟩)
        "\"m\"" "import type \x7b T \x7d from \"m\"",
      Node.importDecl (some ⟨false, none, some (.namedImports [⟨none, "V", ⟨1, "V"⟩⟩])⟩)
        "\"m\"" "import \x7b V \x7d from \"m\"",
      Node.other [Node.ident (some 1) false],
      Node.other [Node.ident (some 2) true]],
    text := "import type \x7b T \x7d from \"m\"\nimport \x7b V \x7d from \"m\"\nV()\nlet x: T\n" }

/-! ### Auxiliary notions about the traversal, used to state the invariants -/

mutual

/-- Size of a node, used for induction over the collector's recursion. -/
def nodeSize : Node → Nat
  | .importDecl _ _ _ => 1
  | .ident _ _ => 1
  | .other cs => 1 + nodeListSize cs

/-- Size of a node list. -/
def nodeListSize : List Node → Nat
  | [] => 0
  | c :: cs => nodeSize c + nodeListSize cs

end

mutual

/-- The registrations of symbol `s` performed while the collector traverses
`n`: one entry per named binding of a qualifying import declaration whose
bound symbol is `s`, recording the declaration's `isTypeOnly` flag.  In
TypeScript every import specifier binds a fresh checker symbol, so a symbol is
registered by at most one declaration. -/
def bindsNode (s : Nat) : Node → List Bool
  | .importDecl clause _ _ =>
    match importGuards clause with
    | .proceed c els =>
      (els.filter (fun el => decide (el.symbol.id = s))).map (fun _ => c.isTypeOnly)
    | _ => []
  | .ident _ _ => []
  | .other cs => bindsList s cs

/-- The `bindsNode` registrations over a list of nodes, in traversal order. -/
def bindsList (s : Nat) : List Node → List Bool
  | [] => []
  | c :: cs => bindsNode s c ++ bindsList s cs

end

mutual

/-- Whether some identifier visited inside `n` resolves to symbol `s`. -/
def refersNode (s : Nat) : Node → Bool
  | .importDecl _ _ _ => false
  | .ident sym _ => decide (sym = some s)
  | .other cs => refersList s cs

/-- The `refersNode` test over a list of nodes. -/
def refersList (s : Nat) : List Node → Bool
  | [] => false
  | c :: cs => refersNode s c || refersList s cs

end

mutual

/-- Whether `n` contains an import declaration anywhere. -/
def hasImportNode : Node → Bool
  | .importDecl _ _ _ => true
  | .ident _ _ => false
  | .other cs => hasImportList cs

/-- The `hasImportNode` test over a list of nodes. -/
def hasImportList : List Node → Bool
  | [] => false
  | c :: cs => hasImportNode c || hasImportList cs

end

/-- Whether a transformed node is an import declaration. -/
def isImportT : TNode → Bool
  | .importDecl _ _ _ _ _ => true
  | _ => false

/-- Whether `n` is a qualifying import declaration for module reference `mod`
whose `isTypeOnly` flag equals `typeOnly`. -/
def isQualifyingOf (typeOnly : Bool) (mod : String) : Node → Bool
  | .importDecl clause mod' _ =>
    (match importGuards clause with
     | .proceed c _ => c.isTypeOnly == typeOnly
     | _ => false) && decide (mod' = mod)
  | _ => false

/-- The `ImportDeclarationsByModuleSpecifier` key a statement records, if any. -/
def declKeyOf : Node → Option String
  | .importDecl clause mod _ =>
    match importGuards clause with
    | .proceed c _ => some (mod ++ (if c.isTypeOnly then "-types" else "-runtime"))
    | _ => none
  | _ => none

/-- The pair of symbol sequences a statement appends to module `mod`'s
buckets. -/
def bucketContrib (imports : ImportsMap) (mod : String) : Node → List Symbol × List Symbol
  | .importDecl clause mod' _ =>
    match importGuards clause with
    | .proceed _ els => if mod' = mod then partitionElements imports els else ([], [])
    | _ => ([], [])
  | _ => ([], [])

/-- Whether a statement is a qualifying import declaration for module `mod`
(and hence creates or extends `mod`'s bucket entry). -/
def touches (mod : String) : Node → Bool
  | .importDecl clause mod' _ =>
    (match importGuards clause with
     | .proceed _ _ => true
     | _ => false) && decide (mod' = mod)
  | _ => false

/-- Concatenated `runtime` contributions of a statement list to module `mod`. -/
def contribRuntime (imports : ImportsMap) (mod : String) : List Node → List Symbol
  | [] => []
  | n :: rest => (bucketContrib imports mod n).1 ++ contribRuntime imports mod rest

/-- Concatenated `types` contributions of a statement list to module `mod`. -/
def contribTypes (imports : ImportsMap) (mod : String) : List Node → List Symbol
  | [] => []
  | n :: rest => (bucketContrib imports mod n).2 ++ contribTypes imports mod rest

/-- Whether two statements are qualifying non-type-only import declarations of
the same module reference. -/
def sameRuntimeMod : Node → Node → Bool
  | .importDecl c1 m1 _, .importDecl c2 m2 _ =>
    (match importGuards c1 with
     | .proceed c _ => !c.isTypeOnly
     | _ => false) &&
    (match importGuards c2 with
     | .proceed c _ => !c.isTypeOnly
     | _ => false) && decide (m1 = m2)
  | _, _ => false

/-- A top-level statement of an already maximally split, canonically formatted
file: either a statement containing no import declaration at all; or an
unsupported-shape import declaration (skipped by the guards); or a qualifying
faithful import declaration for the usage analysis `m` — a type-only
declaration none of whose symbols is value-used, or a non-type-only
declaration all of whose symbols are value-used, alias-free, with at least one
binding, and whose source text is exactly the printer's rendering without the
trailing semicolon. -/
def canonicalStmt (m : ImportsMap) (n : Node) : Prop :=
  hasImportNode n = false ∨
  (∃ clause mod text, n = Node.importDecl clause mod text ∧ importGuards clause = .skip) ∨
  (∃ c els mod text, n = Node.importDecl (some c) mod text ∧
    importGuards (some c) = .proceed c els ∧
    ((c.isTypeOnly = true ∧ ∀ el ∈ els, aget m el.symbol.id ≠ some Usage.valueUsed) ∨
     (c.isTypeOnly = false ∧ els ≠ [] ∧
       (∀ el ∈ els, aget m el.symbol.id = some Usage.valueUsed ∧
         el.propertyName = none ∧ el.name = el.symbol.escapedName) ∧
       text ++ ";" = printImport false none
         (els.map (fun el => Spec.mk el.propertyName el.name)) mod ∧
       ';' ∉ text.data)))

/-! ### Lemmas about the association-list maps -/

theorem aget_nil {κ α : Type} [DecidableEq κ] (k : κ) : aget ([] : List (κ × α)) k = none := rfl

theorem aget_cons {κ α : Type} [DecidableEq κ] (p : κ × α) (m : List (κ × α)) (k : κ) :
    aget (p :: m) k = if p.1 = k then some p.2 else aget m k := by
  by_cases h : p.1 = k <;> simp [aget, List.find?, h]

theorem aset_cons_ne {κ α : Type} [DecidableEq κ] (p : κ × α) (m : List (κ × α)) (k : κ)
    (v : α) (h : ¬ p.1 = k) : aset (p :: m) k v = p :: aset m k v := by
  by_cases hm : m.any (fun q => decide (q.1 = k)) <;>
    simp [aset, h, hm]

theorem aget_map_set {κ α : Type} [DecidableEq κ] (m : List (κ × α)) (k k' : κ) (v : α)
    (h : ¬ k' = k) :
    aget (m.map (fun p => if p.1 = k then (k, v) else p)) k' = aget m k' := by
  induction m with
  | nil => rfl
  | cons p m ih =>
    by_cases hp : p.1 = k
    · have h1 : ¬ k = k' := fun he => h he.symm
      simp [hp, aget_cons, h1, ih]
    · simp [hp, aget_cons, ih]

theorem aget_aset {κ α : Type} [DecidableEq κ] (m : List (κ × α)) (k k' : κ) (v : α) :
    aget (aset m k v) k' = if k' = k then some v else aget m k' := by
  induction m with
  | nil =>
    by_cases h : k' = k
    · subst h; simp [aset, aget_cons]
    · have h1 : ¬ k = k' := fun he => h he.symm
      simp [aset, aget_cons, h, h1]
  | cons p m ih =>
    by_cases hp : p.1 = k
    · have hany : (p :: m).any (fun q => decide (q.1 = k)) = true := by
        simp [List.any_cons, hp]
      by_cases h : k' = k
      · subst h
        simp [aset, hany, hp, aget_cons]
      · have h1 : ¬ k = k' := fun he => h he.symm
        have hp1 : ¬ p.1 = k' := by rw [hp]; exact h1
        simp only [aset, hany, if_true, List.map_cons, if_pos hp]
        rw [aget_cons]
        simp only [h1, if_false, h]
        rw [aget_map_set m k k' v h]
        simp [aget, List.find?, hp1]
    · rw [aset_cons_ne p m k v hp]
      by_cases hpk : p.1 = k'
      · have h1 : ¬ k' = k := fun he => hp (by rw [hpk, he])
        simp [aget_cons, hpk, h1]
      · simp [aget_cons, hpk, ih]

theorem ahas_aset {κ α : Type} [DecidableEq κ] (m : List (κ × α)) (k k' : κ) (v : α) :
    ahas (aset m k v) k' = (decide (k' = k) || ahas m k') := by
  by_cases h : k' = k <;> simp [ahas, aget_aset, h]

/-- The registration loop of the collector: every named binding of the
statement is set to the same value, so the map afterwards holds `v` at `s`
exactly when some element binds `s`, and is untouched at `s` otherwise. -/
theorem aget_foldl_aset (els : List ImportSpecifier) (m : ImportsMap) (v : Usage) (s : Nat) :
    aget (els.foldl (fun m el => aset m el.symbol.id v) m) s =
      if els.any (fun el => decide (el.symbol.id = s)) then some v else aget m s := by
  induction els generalizing m with
  | nil => simp
  | cons el els ih =>
    by_cases h : el.symbol.id = s
    · by_cases hany : els.any (fun el => decide (el.symbol.id = s)) <;>
        simp [List.foldl_cons, ih, h, hany, aget_aset]
    · have h1 : ¬ s = el.symbol.id := fun he => h he.symm
      simp [List.foldl_cons, ih, h, h1, aget_aset]

/-! ### The element partition loop as a pair of filters -/

theorem partitionElements_aux (imports : ImportsMap) (els : List ImportSpecifier)
    (r t : List Symbol) :
    els.foldl (fun rt el =>
        if aget imports el.symbol.id = some Usage.valueUsed then (rt.1 ++ [el.symbol], rt.2)
        else (rt.1, rt.2 ++ [el.symbol])) (r, t) =
      (r ++ (els.filter (fun el =>
          decide (aget imports el.symbol.id = some Usage.valueUsed))).map (fun el => el.symbol),
       t ++ (els.filter (fun el =>
          !decide (aget imports el.symbol.id = some Usage.valueUsed))).map
            (fun el => el.symbol)) := by
  induction els generalizing r t with
  | nil => simp
  | cons el els ih =>
    by_cases h : aget imports el.symbol.id = some Usage.valueUsed <;>
      simp [List.foldl_cons, h, ih, List.filter_cons]

/-- The partition loop splits the elements into the value-used ones and the
rest, keeping source order. -/
theorem partitionElements_spec (imports : ImportsMap) (els : List ImportSpecifier) :
    partitionElements imports els =
      ((els.filter (fun el =>
          decide (aget imports el.symbol.id = some Usage.valueUsed))).map (fun el => el.symbol),
       (els.filter (fun el =>
          !decide (aget imports el.symbol.id = some Usage.valueUsed))).map
            (fun el => el.symbol)) := by
  have h := partitionElements_aux imports els [] []
  simpa [partitionElements] using h

/-- C5: for every qualifying import statement, the union (by symbol identity)
of the `runtime` and `types` sequences the Partitioner produces from its named
bindings is a permutation of the statement's original symbol list — nothing is
dropped or duplicated — and no symbol lands in both sequences. -/
theorem partition_complete (imports : ImportsMap) (els : List ImportSpecifier) :
    ((partitionElements imports els).1 ++ (partitionElements imports els).2).Perm
      (els.map (fun el => el.symbol)) ∧
    ∀ sy : Symbol, sy ∈ (partitionElements imports els).1 →
      sy ∉ (partitionElements imports els).2 := by
  rw [partitionElements_spec]
  constructor
  · rw [← List.map_append]
    exact (List.filter_append_perm _ els).map _
  · intro sy h1 h2
    simp only [List.mem_map, List.mem_filter] at h1 h2
    obtain ⟨el1, ⟨_, hp1⟩, he1⟩ := h1
    obtain ⟨el2, ⟨_, hp2⟩, he2⟩ := h2
    rw [decide_eq_true_eq] at hp1
    have hne : ¬ (aget imports el2.symbol.id = some Usage.valueUsed) := by simpa using hp2
    have heq : el2.symbol = el1.symbol := by rw [he2, he1]
    exact hne (by rw [heq]; exact hp1)

/-- Witness for `partition_complete` at a concrete statement. -/
theorem partition_complete_witness :
    (⟨1, "A"⟩ : Symbol) ∉ (partitionElements [(1, Usage.valueUsed)]
      [⟨none, "A", ⟨1, "A"⟩⟩, ⟨none, "B", ⟨2, "B"⟩⟩]).2 :=
  (partition_complete [(1, Usage.valueUsed)]
    [⟨none, "A", ⟨1, "A"⟩⟩, ⟨none, "B", ⟨2, "B"⟩⟩]).2 ⟨1, "A"⟩ (by decide)

/-! ### Step lemmas for the collector -/

theorem nodeSize_pos (n : Node) : 1 ≤ nodeSize n := by
  cases n with
  | importDecl c m t => simp [nodeSize]
  | ident s p => simp [nodeSize]
  | other cs => simp [nodeSize]

/-- The identifier branch of the collector never erases a `valueUsed`
classification: the `result != true` test guards every write. -/
theorem collect_ident_keeps_valueUsed (sym : Option Nat) (pt : Bool) (m mi : ImportsMap)
    (hcn : collectNode (.ident sym pt) m = .ok mi) (s : Nat)
    (hv : aget m s = some Usage.valueUsed) : aget mi s = some Usage.valueUsed := by
  simp only [collectNode] at hcn
  cases hcn
  cases sym with
  | none => exact hv
  | some s' =>
    dsimp only
    by_cases hs : s' = s
    · subst hs
      rw [hv]
      simpa using hv
    · cases hma : aget m s' with
      | none => exact hv
      | some r =>
        dsimp only
        by_cases hr : r = Usage.valueUsed
        · simpa [hr] using hv
        · have h1 : ¬ s = s' := fun he => hs he.symm
          simp [hr, aget_aset, h1, hv]

/-- The identifier branch only ever writes at the symbol the identifier
resolves to. -/
theorem collect_ident_frame (sym : Option Nat) (pt : Bool) (m mi : ImportsMap)
    (hcn : collectNode (.ident sym pt) m = .ok mi) (s : Nat)
    (hne : sym ≠ some s) : aget mi s = aget m s := by
  simp only [collectNode] at hcn
  cases hcn
  cases sym with
  | none => rfl
  | some s' =>
    dsimp only
    have hs : ¬ s = s' := fun he => hne (by rw [he])
    cases hma : aget m s' with
    | none => rfl
    | some r =>
      dsimp only
      by_cases hr : r = Usage.valueUsed
      · simp [hr]
      · simp [hr, aget_aset, hs]

/-- The import-declaration branch of the collector: a statement that does not
bind `s` leaves the map unchanged at `s`; a statement that binds `s` (however
many times) sets `s` to `typeOnly` or `unknown` according to its own
`isTypeOnly` flag. -/
theorem collect_import_step (clause : Option ImportClause) (mod text : String)
    (m mi : ImportsMap) (hcn : collectNode (.importDecl clause mod text) m = .ok mi)
    (s : Nat) :
    (bindsNode s (.importDecl clause mod text) = [] → aget mi s = aget m s) ∧
    (∀ b bs, bindsNode s (.importDecl clause mod text) = b :: bs →
      aget mi s = some (if b then Usage.typeOnly else Usage.unknown)) := by
  simp only [collectNode] at hcn
  cases hg : importGuards clause with
  | typeError => rw [hg] at hcn; cases hcn
  | skip =>
    rw [hg] at hcn
    cases hcn
    constructor
    · intro _; rfl
    · intro b bs hb
      simp [bindsNode, hg] at hb
  | proceed c els =>
    rw [hg] at hcn
    cases hcn
    rw [aget_foldl_aset]
    constructor
    · intro hb
      simp only [bindsNode, hg, List.map_eq_nil_iff, List.filter_eq_nil_iff,
        decide_eq_true_eq] at hb
      have hany : els.any (fun el => decide (el.symbol.id = s)) = false := by
        rw [List.any_eq_false]
        intro el hel
        simpa using hb el hel
      rw [hany]
      simp
    · intro b bs hb
      simp only [bindsNode, hg] at hb
      have hmem : ∃ el ∈ els, el.symbol.id = s := by
        cases hf : els.filter (fun el => decide (el.symbol.id = s)) with
        | nil => rw [hf] at hb; cases hb
        | cons el rest =>
          have : el ∈ els.filter (fun el => decide (el.symbol.id = s)) := by
            rw [hf]; exact List.mem_cons_self _ _
          rw [List.mem_filter] at this
          exact ⟨el, this.1, by simpa using this.2⟩
      have hbval : b = c.isTypeOnly := by
        cases hf : els.filter (fun el => decide (el.symbol.id = s)) with
        | nil => rw [hf] at hb; cases hb
        | cons el rest => rw [hf] at hb; simp at hb; exact hb.1.symm
      have hany : els.any (fun el => decide (el.symbol.id = s)) = true := by
        rw [List.any_eq_true]
        obtain ⟨el, hel, he⟩ := hmem
        exact ⟨el, hel, by simpa using he⟩
      rw [hany, hbval]
      cases c.isTypeOnly <;> simp

/-- Strong-induction workhorse for classification monotonicity: a traversal
that never re-registers `s` (no import declaration in it binds `s`) keeps a
`valueUsed` classification of `s`. -/
theorem collect_keeps_valueUsed_aux (s : Nat) :
    ∀ (k : Nat) (ns : List Node), nodeListSize ns ≤ k →
      ∀ (m m' : ImportsMap), collectList ns m = Except.ok m' → bindsList s ns = [] →
      aget m s = some Usage.valueUsed → aget m' s = some Usage.valueUsed := by
  intro k
  induction k with
  | zero =>
    intro ns hsz m m' hrun hb hv
    cases ns with
    | nil =>
      simp only [collectList] at hrun
      cases hrun
      exact hv
    | cons n rest =>
      exfalso
      have h1 := nodeSize_pos n
      simp only [nodeListSize] at hsz
      omega
  | succ k ih =>
    intro ns hsz m m' hrun hb hv
    cases ns with
    | nil =>
      simp only [collectList] at hrun
      cases hrun
      exact hv
    | cons n rest =>
      simp only [collectList] at hrun
      simp only [bindsList, List.append_eq_nil] at hb
      obtain ⟨hb1, hb2⟩ := hb
      have hszr : nodeListSize rest ≤ k := by
        have h1 := nodeSize_pos n
        simp only [nodeListSize] at hsz
        omega
      cases hcn : collectNode n m with
      | error e => rw [hcn] at hrun; cases hrun
      | ok mi =>
        rw [hcn] at hrun
        have hmid : aget mi s = some Usage.valueUsed := by
          cases n with
          | importDecl clause mod text =>
            exact (collect_import_step clause mod text m mi hcn s).1 hb1 ▸ hv
          | ident sym pt =>
            exact collect_ident_keeps_valueUsed sym pt m mi hcn s hv
          | other cs =>
            have hcs : collectList cs m = Except.ok mi := by
              simpa only [collectNode] using hcn
            have hszc : nodeListSize cs ≤ k := by
              simp only [nodeListSize, nodeSize] at hsz
              omega
            exact ih cs hszc m mi hcs (by simpa only [bindsNode] using hb1) hv
        exact ih rest hszr mi m' hrun hb2 hmid

/-- C4: classification is monotonic.  Once the `Imports` map classifies a
symbol as `valueUsed`, no later step of the collector's traversal ever changes
it back: identifier visits are guarded by the `result != true` test, and the
hypothesis `bindsList s ns = []` transcribes the TypeScript guarantee that
each checker symbol is bound by (and hence registered for) at most one import
specifier, so no import declaration in the remaining traversal re-registers
`s`. -/
theorem classification_monotonic (ns : List Node) (m m' : ImportsMap) (s : Nat)
    (hrun : collectList ns m = Except.ok m')
    (hbind : bindsList s ns = [])
    (hval : aget m s = some Usage.valueUsed) :
    aget m' s = some Usage.valueUsed :=
  collect_keeps_valueUsed_aux s (nodeListSize ns) ns (Nat.le_refl _) m m' hrun hbind hval

/-- Witness for `classification_monotonic`: a value-used symbol survives a
traversal containing a type-position reference to it. -/
theorem classification_monotonic_witness :
    aget [(1, Usage.valueUsed)] 1 = some Usage.valueUsed :=
  classification_monotonic
    [Node.other [Node.ident (some 1) true, Node.ident (some 1) false]]
    [(1, Usage.valueUsed)] [(1, Usage.valueUsed)] 1 rfl rfl rfl

/-- Strong-induction workhorse for the unreferenced-symbol property: a
traversal containing no identifier reference to `s` leaves `s` untouched when
it does not bind `s`, and leaves it `unknown` when its single registration of
`s` comes from a non-type-only declaration. -/
theorem collect_unknown_aux (s : Nat) :
    ∀ (k : Nat) (ns : List Node), nodeListSize ns ≤ k →
      ∀ (m m' : ImportsMap), collectList ns m = Except.ok m' → refersList s ns = false →
      (bindsList s ns = [] → aget m' s = aget m s) ∧
      (bindsList s ns = [false] → aget m' s = some Usage.unknown) := by
  intro k
  induction k with
  | zero =>
    intro ns hsz m m' hrun href
    cases ns with
    | nil =>
      simp only [collectList] at hrun
      cases hrun
      exact ⟨fun _ => rfl, fun hb => by simp [bindsList] at hb⟩
    | cons n rest =>
      exfalso
      have := nodeSize_pos n
      simp only [nodeListSize] at hsz
      omega
  | succ k ih =>
    intro ns hsz m m' hrun href
    cases ns with
    | nil =>
      simp only [collectList] at hrun
      cases hrun
      exact ⟨fun _ => rfl, fun hb => by simp [bindsList] at hb⟩
    | cons n rest =>
      simp only [collectList] at hrun
      simp only [refersList, Bool.or_eq_false_iff] at href
      obtain ⟨href1, href2⟩ := href
      have hszr : nodeListSize rest ≤ k := by
        have := nodeSize_pos n
        simp only [nodeListSize] at hsz
        omega
      cases hcn : collectNode n m with
      | error e => rw [hcn] at hrun; cases hrun
      | ok mi =>
        rw [hcn] at hrun
        have hnode : (bindsNode s n = [] → aget mi s = aget m s) ∧
            (bindsNode s n = [false] → aget mi s = some Usage.unknown) := by
          cases n with
          | importDecl clause mod text =>
            refine ⟨(collect_import_step clause mod text m mi hcn s).1, fun hb => ?_⟩
            have h2 := (collect_import_step clause mod text m mi hcn s).2 false [] hb
            simpa using h2
          | ident sym pt =>
            have hne : sym ≠ some s := by
              simp only [refersNode] at href1
              simpa using href1
            refine ⟨fun _ => collect_ident_frame sym pt m mi hcn s hne, fun hb => ?_⟩
            simp [bindsNode] at hb
          | other cs =>
            have hcs : collectList cs m = Except.ok mi := by
              simpa only [collectNode] using hcn
            have hszc : nodeListSize cs ≤ k := by
              simp only [nodeListSize, nodeSize] at hsz
              omega
            have hrefc : refersList s cs = false := by simpa only [refersNode] using href1
            have h := ih cs hszc m mi hcs hrefc
            exact ⟨fun hb => h.1 (by simpa only [bindsNode] using hb),
                   fun hb => h.2 (by simpa only [bindsNode] using hb)⟩
        have htail := ih rest hszr mi m' hrun href2
        constructor
        · intro hb
          simp only [bindsList, List.append_eq_nil] at hb
          rw [htail.1 hb.2, hnode.1 hb.1]
        · intro hb
          simp only [bindsList] at hb
          rcases List.append_eq_cons_iff.1 hb with ⟨h1, h2⟩ | ⟨bs, h1, h2⟩
          · exact htail.2 h2
          · obtain ⟨hbs, hrest⟩ := List.append_eq_nil.1 h2.symm
            subst hbs
            rw [htail.1 hrest]
            exact hnode.2 h1

/-- C6: a named-import symbol registered once by a regular (non-type-only)
qualifying import and referenced by no identifier anywhere in the file keeps
classification `unknown` after the collector's traversal; and the partition
loop places every symbol whose classification is `unknown` into the `types`
bucket. -/
theorem unreferenced_unknown_partitioned_to_types :
    (∀ (ns : List Node) (m' : ImportsMap) (s : Nat),
      collectList ns [] = Except.ok m' → refersList s ns = false →
      bindsList s ns = [false] → aget m' s = some Usage.unknown) ∧
    (∀ (imports : ImportsMap) (els : List ImportSpecifier) (el : ImportSpecifier),
      el ∈ els → aget imports el.symbol.id = some Usage.unknown →
      el.symbol ∈ (partitionElements imports els).2) := by
  constructor
  · intro ns m' s hrun href hb
    exact (collect_unknown_aux s (nodeListSize ns) ns (Nat.le_refl _) [] m' hrun href).2 hb
  · intro imports els el hel hunk
    rw [partitionElements_spec]
    simp only [List.mem_map]
    refine ⟨el, ?_, rfl⟩
    rw [List.mem_filter]
    exact ⟨hel, by simp [hunk]⟩

/-- Witness for `unreferenced_unknown_partitioned_to_types` at a concrete
one-import file with an unreferenced binding. -/
theorem unreferenced_unknown_witness :
    aget [(5, Usage.unknown)] 5 = some Usage.unknown ∧
    (⟨5, "X"⟩ : Symbol) ∈ (partitionElements [(5, Usage.unknown)] [⟨none, "X", ⟨5, "X"⟩⟩]).2 :=
  ⟨unreferenced_unknown_partitioned_to_types.1
      [Node.importDecl (some ⟨false, none, some (.namedImports [⟨none, "X", ⟨5, "X"⟩⟩])⟩)
        "\"m\"" "import \x7b X \x7d from \"m\""]
      [(5, Usage.unknown)] 5 rfl rfl rfl,
   unreferenced_unknown_partitioned_to_types.2 [(5, Usage.unknown)] [⟨none, "X", ⟨5, "X"⟩⟩]
      ⟨none, "X", ⟨5, "X"⟩⟩ (List.mem_singleton.2 rfl) rfl⟩

/-- C1 counterexample: on a file whose only import is the type-only
`import type \x7b Baz \x7d from "m"` with no runtime import for `"m"`, the
rewrite records no replacement and writes the file text back unchanged — the
output still contains the import from `"m"`, so the statement is not deleted
from the output file. -/
theorem typeonly_delete_counterexample :
    run false fileTypeOnly = Except.ok (fileTypeOnly.text, []) ∧
    sOccursIn "import type \x7b Baz \x7d from \"m\"" fileTypeOnly.text = true :=
  ⟨rfl, rfl⟩

/-- C1 amended: the transformer does drop every type-only qualifying import
declaration from the transformed AST (`visit` returns `undefined`), but the
replacement pass only records edits for transformed statements that still
exist and link back to an original, so no edit is recorded for the deleted
statement and the output file keeps the original type-only import text
unchanged. -/
theorem typeonly_dropped_from_ast_kept_in_file :
    (∀ (pst : PartitionState) (clause : Option ImportClause) (mod text : String)
        (c : ImportClause) (els : List ImportSpecifier),
      importGuards clause = .proceed c els → c.isTypeOnly = true →
      visitNode pst (.importDecl clause mod text) = Except.ok []) ∧
    run false fileTypeOnly = Except.ok (fileTypeOnly.text, []) := by
  constructor
  · intro pst clause mod text c els hg hty
    simp [visitNode, hg, hty]
  · rfl

/-- Witness for `typeonly_dropped_from_ast_kept_in_file`. -/
theorem typeonly_dropped_witness :
    visitNode ⟨[], []⟩
      (.importDecl (some ⟨true, none, some (.namedImports [⟨none, "Baz", ⟨1, "Baz"⟩⟩])⟩)
        "\"m\"" "import type \x7b Baz \x7d from \"m\"") = Except.ok [] :=
  typeonly_dropped_from_ast_kept_in_file.1 ⟨[], []⟩ _ _ _ _ _ rfl rfl

/-- C2: end-to-end scenario A.  On `import \x7b Foo, Bar \x7d from "m"` with
`Foo` called and `Bar` used only in a type annotation, and no other
declaration for `"m"`, the output rewrites the statement to
`import \x7b Foo \x7d from "m"` immediately preceded by the synthesized
`import type \x7b Bar \x7d from "m"` (which carries no default name clause —
it is printed with nothing between `import type` and its braces). -/
theorem scenario_a_split_end_to_end :
    run false fileScenarioA =
      Except.ok
        ("import type \x7b Bar \x7d from \"m\"\nimport \x7b Foo \x7d from \"m\"\nFoo()\nlet x: Bar\n",
         [⟨"import \x7b Foo, Bar \x7d from \"m\"",
           "import type \x7b Bar \x7d from \"m\"\nimport \x7b Foo \x7d from \"m\""⟩]) := rfl

/-- C3 (code bug): a default import, a namespace import, and a
default-plus-named import are silently passed through — the run records no
replacement and writes the file back byte-for-byte.  But a bare side-effect
statement `import "m"`, which has no import clause at all, crashes the collector
with a `TypeError` (the guard `importClause && !importClause.namedBindings`
falls through for a missing clause and the next line dereferences it), so the
run aborts instead of treating the statement as a no-op. -/
theorem bare_import_crashes_others_pass_through :
    run false fileBareImport = Except.error () ∧
    collectList fileBareImport.statements [] = Except.error () ∧
    run false fileUnsupported = Except.ok (fileUnsupported.text, []) :=
  ⟨rfl, rfl, rfl⟩


/-! ### Characterizations of the transformer on import declarations -/

theorem visitNode_import_error (pst : PartitionState) (clause : Option ImportClause)
    (mod text : String) (hg : importGuards clause = .typeError) :
    visitNode pst (.importDecl clause mod text) = Except.error () := by
  simp [visitNode, hg]

theorem visitNode_import_skip (pst : PartitionState) (clause : Option ImportClause)
    (mod text : String) (hg : importGuards clause = .skip) :
    visitNode pst (.importDecl clause mod text) = Except.ok [] := by
  simp [visitNode, hg]

theorem visitNode_import_typeonly (pst : PartitionState) (clause : Option ImportClause)
    (mod text : String) (c : ImportClause) (els : List ImportSpecifier)
    (hg : importGuards clause = .proceed c els) (hty : c.isTypeOnly = true) :
    visitNode pst (.importDecl clause mod text) = Except.ok [] := by
  simp [visitNode, hg, hty]

theorem visitNode_import_noentry (pst : PartitionState) (clause : Option ImportClause)
    (mod text : String) (c : ImportClause) (els : List ImportSpecifier)
    (hg : importGuards clause = .proceed c els) (hty : c.isTypeOnly = false)
    (hb : aget pst.importsBySpec mod = none) :
    visitNode pst (.importDecl clause mod text) = Except.error () := by
  simp [visitNode, hg, hty, hb]

theorem visitNode_import_runtime_empty (pst : PartitionState) (clause : Option ImportClause)
    (mod text : String) (c : ImportClause) (els : List ImportSpecifier) (b : Buckets)
    (hg : importGuards clause = .proceed c els) (hty : c.isTypeOnly = false)
    (hb : aget pst.importsBySpec mod = some b) (hz : b.runtime.length = 0) :
    visitNode pst (.importDecl clause mod text) =
      (if ahas pst.importDecls (mod ++ "-types") then Except.ok []
       else Except.ok [TNode.importDecl true c.name
         (b.types.map fun sy => Spec.mk none sy.escapedName) mod
         (some (Node.importDecl clause mod text))]) := by
  by_cases ha : ahas pst.importDecls (mod ++ "-types") <;>
    simp [visitNode, hg, hty, hb, hz, ha]

theorem visitNode_import_runtime (pst : PartitionState) (clause : Option ImportClause)
    (mod text : String) (c : ImportClause) (els : List ImportSpecifier) (b : Buckets)
    (hg : importGuards clause = .proceed c els) (hty : c.isTypeOnly = false)
    (hb : aget pst.importsBySpec mod = some b) (hne : ¬ b.runtime.length = 0) :
    visitNode pst (.importDecl clause mod text) =
      (if ahas pst.importDecls (mod ++ "-types") = false ∧ b.types.length ≠ 0 then
        Except.ok [TNode.importDecl true none
            (b.types.map fun sy => Spec.mk none sy.escapedName) mod none,
          TNode.importDecl false c.name
            (b.runtime.map fun sy => Spec.mk none sy.escapedName) mod
            (some (Node.importDecl clause mod text))]
       else Except.ok [TNode.importDecl false c.name
            (b.runtime.map fun sy => Spec.mk none sy.escapedName) mod
            (some (Node.importDecl clause mod text))]) := by
  simp [visitNode, hg, hty, hb, hne]

/-- C9: when a non-type-only import statement is rewritten and its module's
`runtime` bucket is non-empty, the rewritten statement (always the last node
the visitor returns for it) carries the module's entire accumulated runtime
sequence, not the statement's own bindings.  End to end, two runtime imports
of `"m"` binding `A` and `B` are each rewritten to
`import \x7b A, B \x7d from "m"`, duplicating the bindings. -/
theorem runtime_rewrite_uses_accumulated_bucket :
    (∀ (pst : PartitionState) (clause : Option ImportClause) (mod text : String)
        (c : ImportClause) (els : List ImportSpecifier) (b : Buckets) (out : List TNode),
      importGuards clause = .proceed c els → c.isTypeOnly = false →
      aget pst.importsBySpec mod = some b → b.runtime ≠ [] →
      visitNode pst (.importDecl clause mod text) = Except.ok out →
      out.getLast? = some (TNode.importDecl false c.name
        (b.runtime.map (fun sy => Spec.mk none sy.escapedName)) mod
        (some (Node.importDecl clause mod text)))) ∧
    run false fileDup =
      Except.ok
        ("import \x7b A, B \x7d from \"m\"\nimport \x7b A, B \x7d from \"m\"\nA()\nB()\n",
         [⟨"import \x7b A \x7d from \"m\"", "import \x7b A, B \x7d from \"m\""⟩,
          ⟨"import \x7b B \x7d from \"m\"", "import \x7b A, B \x7d from \"m\""⟩]) := by
  constructor
  · intro pst clause mod text c els b out hg hty hb hne hv
    rw [visitNode_import_runtime pst clause mod text c els b hg hty hb
      (by simpa using hne)] at hv
    split at hv
    · cases hv
      rfl
    · cases hv
      rfl
  · rfl

/-- Witness for `runtime_rewrite_uses_accumulated_bucket` at the first
statement of `fileDup` against its final partition state: the single-binding
statement is rewritten to carry both accumulated runtime symbols. -/
theorem runtime_rewrite_accumulated_witness :
    ([TNode.importDecl false none
        [Spec.mk none "A", Spec.mk none "B"] "\"m\""
        (some (Node.importDecl (some ⟨false, none, some (.namedImports [⟨none, "A", ⟨1, "A"⟩⟩])⟩)
          "\"m\"" "import \x7b A \x7d from \"m\""))] : List TNode).getLast? =
      some (TNode.importDecl false none
        [Spec.mk none "A", Spec.mk none "B"] "\"m\""
        (some (Node.importDecl (some ⟨false, none, some (.namedImports [⟨none, "A", ⟨1, "A"⟩⟩])⟩)
          "\"m\"" "import \x7b A \x7d from \"m\""))) := by
  have h := runtime_rewrite_uses_accumulated_bucket.1
    ⟨[("\"m\"-runtime", true)], [("\"m\"", ⟨[⟨1, "A"⟩, ⟨2, "B"⟩], []⟩)]⟩
    (some ⟨false, none, some (.namedImports [⟨none, "A", ⟨1, "A"⟩⟩])⟩)
    "\"m\"" "import \x7b A \x7d from \"m\""
    ⟨false, none, some (.namedImports [⟨none, "A", ⟨1, "A"⟩⟩])⟩
    [⟨none, "A", ⟨1, "A"⟩⟩] ⟨[⟨1, "A"⟩, ⟨2, "B"⟩], []⟩ _
    rfl rfl rfl (by simp) rfl
  exact h

/-- C10: every specifier of a rewritten or synthesized import declaration is
created as `createImportSpecifier(undefined, identifier(symbol.escapedName))`,
so it carries no property-name alias; end to end, the aliased
`import \x7b a as b, c as d \x7d from "m"` is emitted as `import \x7b b \x7d`
and `import type \x7b d \x7d`, silently dropping both aliases. -/
theorem rewrite_drops_aliases :
    (∀ (pst : PartitionState) (clause : Option ImportClause) (mod text : String)
        (out : List TNode) (ty : Bool) (nm : Option String) (specs : List Spec)
        (mod' : String) (orig : Option Node),
      visitNode pst (.importDecl clause mod text) = Except.ok out →
      TNode.importDecl ty nm specs mod' orig ∈ out →
      ∀ sp ∈ specs, sp.propertyName = none) ∧
    run false fileAlias =
      Except.ok
        ("import type \x7b d \x7d from \"m\"\nimport \x7b b \x7d from \"m\"\nb()\nlet x: d\n",
         [⟨"import \x7b a as b, c as d \x7d from \"m\"",
           "import type \x7b d \x7d from \"m\"\nimport \x7b b \x7d from \"m\""⟩]) := by
  constructor
  · intro pst clause mod text out ty nm specs mod' orig hv hmem sp hsp
    cases hg : importGuards clause with
    | typeError =>
      rw [visitNode_import_error pst clause mod text hg] at hv
      cases hv
    | skip =>
      rw [visitNode_import_skip pst clause mod text hg] at hv
      cases hv
      cases hmem
    | proceed c els =>
      by_cases hty : c.isTypeOnly = true
      · rw [visitNode_import_typeonly pst clause mod text c els hg hty] at hv
        cases hv
        cases hmem
      · have hty2 : c.isTypeOnly = false := by simpa using hty
        cases hd : aget pst.importsBySpec mod with
        | none =>
          rw [visitNode_import_noentry pst clause mod text c els hg hty2 hd] at hv
          cases hv
        | some b =>
          by_cases hz : b.runtime.length = 0
          · rw [visitNode_import_runtime_empty pst clause mod text c els b hg hty2 hd hz] at hv
            split at hv
            · cases hv
              cases hmem
            · cases hv
              cases hmem with
              | head =>
                obtain ⟨sy, _, rfl⟩ := List.mem_map.1 hsp
                rfl
              | tail _ h => cases h
          · rw [visitNode_import_runtime pst clause mod text c els b hg hty2 hd hz] at hv
            split at hv
            · cases hv
              cases hmem with
              | head =>
                obtain ⟨sy, _, rfl⟩ := List.mem_map.1 hsp
                rfl
              | tail _ h =>
                cases h with
                | head =>
                  obtain ⟨sy, _, rfl⟩ := List.mem_map.1 hsp
                  rfl
                | tail _ h2 => cases h2
            · cases hv
              cases hmem with
              | head =>
                obtain ⟨sy, _, rfl⟩ := List.mem_map.1 hsp
                rfl
              | tail _ h => cases h
  · rfl

/-- Witness for `rewrite_drops_aliases` at the aliased statement of
`fileAlias` against its final partition state. -/
theorem rewrite_drops_aliases_witness :
    (Spec.mk none "b" : Spec).propertyName = none :=
  rewrite_drops_aliases.1
    ⟨[("\"m\"-runtime", true)], [("\"m\"", ⟨[⟨1, "b"⟩], [⟨2, "d"⟩]⟩)]⟩
    (some ⟨false, none, some (.namedImports
      [⟨some "a", "b", ⟨1, "b"⟩⟩, ⟨some "c", "d", ⟨2, "d"⟩⟩])⟩)
    "\"m\"" "import \x7b a as b, c as d \x7d from \"m\""
    [TNode.importDecl true none [Spec.mk none "d"] "\"m\"" none,
     TNode.importDecl false none [Spec.mk none "b"] "\"m\""
       (some (Node.importDecl (some ⟨false, none, some (.namedImports
         [⟨some "a", "b", ⟨1, "b"⟩⟩, ⟨some "c", "d", ⟨2, "d"⟩⟩])⟩)
         "\"m\"" "import \x7b a as b, c as d \x7d from \"m\""))]
    false none [Spec.mk none "b"] "\"m\""
    (some (Node.importDecl (some ⟨false, none, some (.namedImports
      [⟨some "a", "b", ⟨1, "b"⟩⟩, ⟨some "c", "d", ⟨2, "d"⟩⟩])⟩)
      "\"m\"" "import \x7b a as b, c as d \x7d from \"m\""))
    rfl (by simp) (Spec.mk none "b") (by simp)

/-! ### First-occurrence substitution: frame lemmas -/

theorem leadsWith_iff (pat s : List Char) :
    leadsWith pat s = true ↔ ∃ t, s = pat ++ t := by
  induction pat generalizing s with
  | nil =>
    simp [leadsWith]
  | cons p ps ih =>
    cases s with
    | nil => simp [leadsWith]
    | cons c cs =>
      simp only [leadsWith, Bool.and_eq_true, decide_eq_true_eq, ih]
      constructor
      · rintro ⟨rfl, t, rfl⟩
        exact ⟨t, rfl⟩
      · rintro ⟨t, ht⟩
        injection ht with h1 h2
        exact ⟨h1.symm, t, h2⟩

/-- First-occurrence substitution: when the pattern does not occur the string
is unchanged, and when it occurs exactly the earliest occurrence is replaced,
every byte before and after it being preserved. -/
theorem listReplaceFirst_spec (s pat rep : List Char) :
    (occursIn pat s = false → listReplaceFirst s pat rep = s) ∧
    (occursIn pat s = true →
      ∃ a b : List Char, s = a ++ pat ++ b ∧
        listReplaceFirst s pat rep = a ++ rep ++ b ∧
        ∀ a' b' : List Char, s = a' ++ pat ++ b' → a.length ≤ a'.length) := by
  induction s with
  | nil =>
    constructor
    · intro h
      simp only [occursIn] at h
      simp [listReplaceFirst, h]
    · intro h
      simp only [occursIn] at h
      have hp : pat = [] := by simpa using h
      subst hp
      exact ⟨[], [], rfl, by simp [listReplaceFirst], fun a' b' _ => Nat.zero_le _⟩
  | cons c cs ih =>
    constructor
    · intro h
      simp only [occursIn, Bool.or_eq_false_iff] at h
      obtain ⟨h1, h2⟩ := h
      simp only [listReplaceFirst, h1, Bool.false_eq_true, if_false]
      rw [ih.1 h2]
    · intro h
      by_cases h1 : leadsWith pat (c :: cs) = true
      · obtain ⟨t, ht⟩ := (leadsWith_iff pat (c :: cs)).1 h1
        refine ⟨[], t, by simpa using ht, ?_, fun a' b' _ => Nat.zero_le _⟩
        simp only [listReplaceFirst, h1, if_true]
        rw [ht, List.drop_left]
        simp
      · have h2 : occursIn pat cs = true := by
          simp only [occursIn, Bool.or_eq_true] at h
          rcases h with h | h
          · exact absurd h h1
          · exact h
        obtain ⟨a, b, hs, hr, hmin⟩ := ih.2 h2
        have h1f : leadsWith pat (c :: cs) = false := by
          simpa using h1
        refine ⟨c :: a, b, by simp [hs], ?_, ?_⟩
        · simp only [listReplaceFirst, h1f, Bool.false_eq_true, if_false]
          simp [hr]
        · intro a' b' hab
          cases a' with
          | nil =>
            exfalso
            apply h1
            rw [leadsWith_iff]
            exact ⟨b', by simpa using hab⟩
          | cons c' a'' =>
            injection hab with hc hcs
            have := hmin a'' b' hcs
            simp only [List.length_cons]
            omega

/-- C7 amended: the Patch Applier is purely text-based.  A single recorded
edit is applied by first-occurrence substitution on the whole file text: if
the rendered target text does not occur, the file is unchanged (the edit is a
silent no-op); if it occurs, exactly the earliest occurrence — wherever it is,
not necessarily the rewritten declaration's own span — is replaced, and every
byte outside that earliest occurrence is preserved. -/
theorem patch_applier_text_frame (src : String) (r : Replacement) :
    applyReplacements src [r] = sReplaceFirst src r.target r.replacement ∧
    (sOccursIn r.target src = false → sReplaceFirst src r.target r.replacement = src) ∧
    (sOccursIn r.target src = true →
      ∃ a b : List Char, src.data = a ++ r.target.data ++ b ∧
        (sReplaceFirst src r.target r.replacement).data = a ++ r.replacement.data ++ b ∧
        ∀ a' b' : List Char, src.data = a' ++ r.target.data ++ b' → a.length ≤ a'.length) := by
  refine ⟨rfl, ?_, ?_⟩
  · intro h
    have h2 := (listReplaceFirst_spec src.data r.target.data r.replacement.data).1 h
    show String.mk (listReplaceFirst src.data r.target.data r.replacement.data) = src
    rw [h2]
  · intro h
    exact (listReplaceFirst_spec src.data r.target.data r.replacement.data).2 h

/-- Witness for `patch_applier_text_frame`: an edit whose target is absent is
a no-op, and an edit whose target occurs is applied at the first occurrence. -/
theorem patch_applier_text_frame_witness :
    sReplaceFirst "ab" "q" "z" = "ab" ∧
    ∃ a b : List Char, "ab".data = a ++ "b".data ++ b ∧
      (sReplaceFirst "ab" "b" "z").data = a ++ "z".data ++ b ∧
      ∀ a' b' : List Char, "ab".data = a' ++ "b".data ++ b' → a.length ≤ a'.length :=
  ⟨(patch_applier_text_frame "ab" ⟨"q", "z"⟩).2.1 rfl,
   (patch_applier_text_frame "ab" ⟨"b", "z"⟩).2.2 rfl⟩

/-- C7 counterexample: in `fileCollision` the rewritten import declaration's
rendered text also occurs, earlier, inside a comment.  The recorded edit
rewrites the comment and leaves the actual import declaration unchanged, so
bytes outside every rewritten declaration's span are modified. -/
theorem patch_applier_collision_counterexample :
    run false fileCollision =
      Except.ok
        ("// import type \x7b B \x7d from \"m\"\nimport \x7b A \x7d from \"m\"\nimport \x7b A, B \x7d from \"m\"\nA()\nlet x: B\n",
         [⟨"import \x7b A, B \x7d from \"m\"",
           "import type \x7b B \x7d from \"m\"\nimport \x7b A \x7d from \"m\""⟩]) ∧
    sOccursIn "// import \x7b A, B \x7d from \"m\"" fileCollision.text = true ∧
    sOccursIn "// import \x7b A, B \x7d from \"m\""
      "// import type \x7b B \x7d from \"m\"\nimport \x7b A \x7d from \"m\"\nimport \x7b A, B \x7d from \"m\"\nA()\nlet x: B\n" = false :=
  ⟨rfl, rfl, rfl⟩

/-! ### Toward idempotence: semicolon stripping and partition characterization -/

theorem listReplaceFirst_append_semi (l : List Char) (h : ';' ∉ l) :
    listReplaceFirst (l ++ [';']) [';'] [] = l := by
  induction l with
  | nil => rfl
  | cons c cs ih =>
    have hc : ¬ (';' = c) := fun he => h (by rw [he]; exact List.mem_cons_self _ _)
    have hcs : ';' ∉ cs := fun hm => h (List.mem_cons_of_mem _ hm)
    have hl : leadsWith [';'] (c :: (cs ++ [';'])) = false := by
      simp [leadsWith, hc]
    have hstep : listReplaceFirst (c :: (cs ++ [';'])) [';'] [] =
        c :: listReplaceFirst (cs ++ [';']) [';'] [] := by
      simp only [listReplaceFirst, hl, Bool.false_eq_true, if_false]
    calc listReplaceFirst ((c :: cs) ++ [';']) [';'] []
        = c :: listReplaceFirst (cs ++ [';']) [';'] [] := hstep
      _ = c :: cs := by rw [ih hcs]

theorem stripSemi_append_semi (text : String) (h : ';' ∉ text.data) :
    stripSemi (text ++ ";") = text := by
  show String.mk (listReplaceFirst (text ++ ";").data [';'] []) = text
  rw [String.data_append]
  show String.mk (listReplaceFirst (text.data ++ [';']) [';'] []) = text
  rw [listReplaceFirst_append_semi text.data h]

theorem self_ne_append_semi (text : String) : ¬ (text = text ++ ";") := by
  intro h
  have h2 := congrArg String.length h
  rw [String.length_append] at h2
  have h3 : (";" : String).length = 1 := rfl
  omega

theorem partitionStmt_nonimport (imports : ImportsMap) (st : PartitionState) (n : Node)
    (h : hasImportNode n = false) : partitionStmt imports st n = Except.ok st := by
  cases n with
  | importDecl c mo t => simp [hasImportNode] at h
  | ident s p => rfl
  | other cs => rfl

theorem partitionStmt_skip (imports : ImportsMap) (st : PartitionState)
    (clause : Option ImportClause) (mod text : String)
    (hg : importGuards clause = .skip) :
    partitionStmt imports st (.importDecl clause mod text) = Except.ok st := by
  simp only [partitionStmt]
  rw [hg]

theorem partitionStmt_proceed (imports : ImportsMap) (st : PartitionState)
    (clause : Option ImportClause) (mod text : String) (c : ImportClause)
    (els : List ImportSpecifier) (hg : importGuards clause = .proceed c els) :
    partitionStmt imports st (.importDecl clause mod text) = Except.ok
      ⟨(if c.isTypeOnly then aset st.importDecls (mod ++ "-types") true
        else aset st.importDecls (mod ++ "-runtime") true),
       (match aget st.importsBySpec mod with
        | some b => aset st.importsBySpec mod
            ⟨b.runtime ++ (partitionElements imports els).1,
             b.types ++ (partitionElements imports els).2⟩
        | none => aset st.importsBySpec mod
            ⟨(partitionElements imports els).1, (partitionElements imports els).2⟩)⟩ := by
  simp only [partitionStmt]
  rw [hg]

theorem partitionList_ok (m : ImportsMap) :
    ∀ (ns : List Node), (∀ n ∈ ns, canonicalStmt m n) →
      ∀ st, ∃ st', partitionList m ns st = Except.ok st' := by
  intro ns
  induction ns with
  | nil => exact fun _ st => ⟨st, rfl⟩
  | cons n rest ih =>
    intro h st
    have hn := h n (List.mem_cons_self _ _)
    have hstep : ∃ st1, partitionStmt m st n = Except.ok st1 := by
      rcases hn with hfree | ⟨clause, mod, text, heq, hskip⟩ | ⟨c, els, mod, text, heq, hg, _⟩
      · exact ⟨st, partitionStmt_nonimport m st n hfree⟩
      · exact ⟨st, heq ▸ partitionStmt_skip m st clause mod text hskip⟩
      · exact ⟨_, heq ▸ partitionStmt_proceed m st (some c) mod text c els hg⟩
    obtain ⟨st1, h1⟩ := hstep
    obtain ⟨st', h2⟩ := ih (fun x hx => h x (List.mem_cons_of_mem _ hx)) st1
    exact ⟨st', by simp [partitionList, h1, h2]⟩

theorem partitionList_decls (imports : ImportsMap) :
    ∀ (ns : List Node) (st st' : PartitionState),
      partitionList imports ns st = Except.ok st' → ∀ k : String,
      ahas st'.importDecls k =
        (ahas st.importDecls k || ns.any (fun n => decide (declKeyOf n = some k))) := by
  intro ns
  induction ns with
  | nil =>
    intro st st' h k
    simp only [partitionList] at h
    cases h
    simp
  | cons n rest ih =>
    intro st st' h k
    simp only [partitionList] at h
    cases hstep : partitionStmt imports st n with
    | error e => rw [hstep] at h; cases h
    | ok st1 =>
      rw [hstep] at h
      have hrest := ih st1 st' h k
      have hone : ahas st1.importDecls k =
          (ahas st.importDecls k || decide (declKeyOf n = some k)) := by
        cases n with
        | ident s p =>
          cases hstep
          simp [declKeyOf]
        | other cs =>
          cases hstep
          simp [declKeyOf]
        | importDecl clause mod text =>
          cases hg : importGuards clause with
          | typeError =>
            rw [show partitionStmt imports st (.importDecl clause mod text) =
              Except.error () from by simp only [partitionStmt]; rw [hg]] at hstep
            cases hstep
          | skip =>
            rw [partitionStmt_skip imports st clause mod text hg] at hstep
            cases hstep
            simp [declKeyOf, hg]
          | proceed c els =>
            rw [partitionStmt_proceed imports st clause mod text c els hg] at hstep
            cases hstep
            cases hty : c.isTypeOnly with
            | true =>
              simp only [declKeyOf, hg, hty, if_true]
              rw [ahas_aset]
              simp [eq_comm, Bool.or_comm]
            | false =>
              simp only [declKeyOf, hg, hty, Bool.false_eq_true, if_false]
              rw [ahas_aset]
              simp [eq_comm, Bool.or_comm]
      rw [hrest, hone]
      simp [List.any_cons, Bool.or_assoc]

theorem partitionList_buckets (imports : ImportsMap) :
    ∀ (ns : List Node) (st st' : PartitionState),
      partitionList imports ns st = Except.ok st' → ∀ mod : String,
      aget st'.importsBySpec mod =
        (match aget st.importsBySpec mod with
         | some b => some (Buckets.mk (b.runtime ++ contribRuntime imports mod ns)
                           (b.types ++ contribTypes imports mod ns))
         | none =>
           if ns.any (touches mod) then
             some (Buckets.mk (contribRuntime imports mod ns) (contribTypes imports mod ns))
           else none) := by
  intro ns
  induction ns with
  | nil =>
    intro st st' h mod
    simp only [partitionList] at h
    cases h
    cases hb : aget st.importsBySpec mod <;>
      simp [contribRuntime, contribTypes, hb]
  | cons n rest ih =>
    intro st st' h mod
    simp only [partitionList] at h
    cases hstep : partitionStmt imports st n with
    | error e => rw [hstep] at h; cases h
    | ok st1 =>
      rw [hstep] at h
      have hrest := ih st1 st' h mod
      cases n with
      | ident s p =>
        cases hstep
        rw [hrest]
        simp [contribRuntime, contribTypes, bucketContrib, touches, List.any_cons]
      | other cs =>
        cases hstep
        rw [hrest]
        simp [contribRuntime, contribTypes, bucketContrib, touches, List.any_cons]
      | importDecl clause mod' text =>
        cases hg : importGuards clause with
        | typeError =>
          rw [show partitionStmt imports st (.importDecl clause mod' text) =
            Except.error () from by simp only [partitionStmt]; rw [hg]] at hstep
          cases hstep
        | skip =>
          rw [partitionStmt_skip imports st clause mod' text hg] at hstep
          cases hstep
          rw [hrest]
          simp [contribRuntime, contribTypes, bucketContrib, touches, hg, List.any_cons]
        | proceed c els =>
          rw [partitionStmt_proceed imports st clause mod' text c els hg] at hstep
          cases hstep
          rw [hrest]
          dsimp only
          by_cases hmod : mod' = mod
          · subst hmod
            have htouch : touches mod' (Node.importDecl clause mod' text) = true := by
              simp [touches, hg]
            cases hb : aget st.importsBySpec mod' with
            | some b =>
              dsimp only
              rw [aget_aset]
              simp only [if_pos rfl]
              simp [contribRuntime, contribTypes, bucketContrib, hg, List.append_assoc]
            | none =>
              dsimp only
              rw [aget_aset]
              simp only [if_pos rfl]
              simp [contribRuntime, contribTypes, bucketContrib, hg, List.any_cons, htouch]
          · have hne : ¬ mod = mod' := fun he => hmod he.symm
            have hcr : (bucketContrib imports mod (Node.importDecl clause mod' text)).1 = [] := by
              simp [bucketContrib, hg, hmod]
            have hct : (bucketContrib imports mod (Node.importDecl clause mod' text)).2 = [] := by
              simp [bucketContrib, hg, hmod]
            have htch : touches mod (Node.importDecl clause mod' text) = false := by
              simp [touches, hg, hmod]
            cases hb : aget st.importsBySpec mod' with
            | some b =>
              dsimp only
              rw [aget_aset]
              simp only [hne, if_false]
              simp only [contribRuntime, contribTypes, hcr, hct, List.nil_append,
                List.any_cons, htch, Bool.false_or]
            | none =>
              dsimp only
              rw [aget_aset]
              simp only [hne, if_false]
              simp only [contribRuntime, contribTypes, hcr, hct, List.nil_append,
                List.any_cons, htch, Bool.false_or]

/-- A canonical statement that is not a non-type-only qualifying import of
`mod` contributes nothing to `mod`'s runtime bucket. -/
theorem bucketContrib_runtime_nil (m : ImportsMap) (mod : String) (y : Node)
    (hcan : canonicalStmt m y) (hnot : isQualifyingOf false mod y = false) :
    (bucketContrib m mod y).1 = [] := by
  rcases hcan with hfree | ⟨clause, mod', text, heq, hskip⟩ | ⟨c, els, mod', text, heq, hg, hsub⟩
  · cases y with
    | importDecl cl mo t => simp [hasImportNode] at hfree
    | ident s p => rfl
    | other cs => rfl
  · subst heq
    simp [bucketContrib, hskip]
  · subst heq
    rcases hsub with ⟨hty, hels⟩ | ⟨hty, _, hels, _, _⟩
    · by_cases hmod : mod' = mod
      · subst hmod
        have hcontrib : bucketContrib m mod' (Node.importDecl (some c) mod' text) =
            partitionElements m els := by simp [bucketContrib, hg]
        rw [hcontrib, partitionElements_spec]
        dsimp only
        rw [List.map_eq_nil_iff, List.filter_eq_nil_iff]
        intro el hel
        simpa using hels el hel
      · simp [bucketContrib, hg, hmod]
    · by_cases hmod : mod' = mod
      · subst hmod
        exfalso
        rw [show isQualifyingOf false mod' (Node.importDecl (some c) mod' text) =
            true from by simp [isQualifyingOf, hg, hty]] at hnot
        cases hnot
      · simp [bucketContrib, hg, hmod]

/-- A canonical statement that is not a type-only qualifying import of `mod`
contributes nothing to `mod`'s types bucket. -/
theorem bucketContrib_types_nil (m : ImportsMap) (mod : String) (y : Node)
    (hcan : canonicalStmt m y) (hnot : isQualifyingOf true mod y = false) :
    (bucketContrib m mod y).2 = [] := by
  rcases hcan with hfree | ⟨clause, mod', text, heq, hskip⟩ | ⟨c, els, mod', text, heq, hg, hsub⟩
  · cases y with
    | importDecl cl mo t => simp [hasImportNode] at hfree
    | ident s p => rfl
    | other cs => rfl
  · subst heq
    simp [bucketContrib, hskip]
  · subst heq
    rcases hsub with ⟨hty, _⟩ | ⟨hty, _, hels, _, _⟩
    · by_cases hmod : mod' = mod
      · subst hmod
        exfalso
        rw [show isQualifyingOf true mod' (Node.importDecl (some c) mod' text) =
            true from by simp [isQualifyingOf, hg, hty]] at hnot
        cases hnot
      · simp [bucketContrib, hg, hmod]
    · by_cases hmod : mod' = mod
      · subst hmod
        have hcontrib : bucketContrib m mod' (Node.importDecl (some c) mod' text) =
            partitionElements m els := by simp [bucketContrib, hg]
        rw [hcontrib, partitionElements_spec]
        dsimp only
        rw [List.map_eq_nil_iff, List.filter_eq_nil_iff]
        intro el hel
        simp [(hels el hel).1]
      · simp [bucketContrib, hg, hmod]

/-- Two qualifying non-type-only import declarations of the same module are
related by `sameRuntimeMod`. -/
theorem sameRuntimeMod_of_both (mod : String) (x y : Node)
    (hx : isQualifyingOf false mod x = true) (hy : isQualifyingOf false mod y = true) :
    sameRuntimeMod x y = true := by
  cases x with
  | ident s p => simp [isQualifyingOf] at hx
  | other cs => simp [isQualifyingOf] at hx
  | importDecl cl1 m1 t1 =>
    cases y with
    | ident s p => simp [isQualifyingOf] at hy
    | other cs => simp [isQualifyingOf] at hy
    | importDecl cl2 m2 t2 =>
      simp only [isQualifyingOf, Bool.and_eq_true, decide_eq_true_eq] at hx hy
      obtain ⟨hx1, hx2⟩ := hx
      obtain ⟨hy1, hy2⟩ := hy
      cases hg1 : importGuards cl1 with
      | typeError => rw [hg1] at hx1; cases hx1
      | skip => rw [hg1] at hx1; cases hx1
      | proceed c1 e1 =>
        rw [hg1] at hx1
        cases hg2 : importGuards cl2 with
        | typeError => rw [hg2] at hy1; cases hy1
        | skip => rw [hg2] at hy1; cases hy1
        | proceed c2 e2 =>
          rw [hg2] at hy1
          simp only [sameRuntimeMod, hg1, hg2, Bool.and_eq_true, decide_eq_true_eq]
          refine ⟨⟨?_, ?_⟩, ?_⟩
          · simpa using hx1
          · simpa using hy1
          · rw [hx2, hy2]

/-- A canonical statement list with no non-type-only qualifying import of
`mod` contributes nothing to `mod`'s runtime bucket. -/
theorem contribRuntime_nil_of (m : ImportsMap) (mod : String) :
    ∀ ns : List Node, (∀ y ∈ ns, canonicalStmt m y) →
      (∀ y ∈ ns, isQualifyingOf false mod y = false) →
      contribRuntime m mod ns = [] := by
  intro ns
  induction ns with
  | nil => intro _ _; rfl
  | cons y rest ih =>
    intro hcan hq
    simp only [contribRuntime]
    rw [bucketContrib_runtime_nil m mod y (hcan y (List.mem_cons_self _ _))
      (hq y (List.mem_cons_self _ _))]
    rw [List.nil_append]
    exact ih (fun z hz => hcan z (List.mem_cons_of_mem _ hz))
      (fun z hz => hq z (List.mem_cons_of_mem _ hz))

/-- A canonical statement list with no type-only qualifying import of `mod`
contributes nothing to `mod`'s types bucket. -/
theorem contribTypes_nil_of (m : ImportsMap) (mod : String) :
    ∀ ns : List Node, (∀ y ∈ ns, canonicalStmt m y) →
      (∀ y ∈ ns, isQualifyingOf true mod y = false) →
      contribTypes m mod ns = [] := by
  intro ns
  induction ns with
  | nil => intro _ _; rfl
  | cons y rest ih =>
    intro hcan hq
    simp only [contribTypes]
    rw [bucketContrib_types_nil m mod y (hcan y (List.mem_cons_self _ _))
      (hq y (List.mem_cons_self _ _))]
    rw [List.nil_append]
    exact ih (fun z hz => hcan z (List.mem_cons_of_mem _ hz))
      (fun z hz => hq z (List.mem_cons_of_mem _ hz))

/-- With at most one non-type-only import per module (the `sameRuntimeMod`
pairwise condition) in a canonical file, the accumulated runtime bucket of
`mod` is exactly the partitioned elements of its unique runtime import. -/
theorem contribRuntime_unique (m : ImportsMap) (mod : String) :
    ∀ ns : List Node, (∀ x ∈ ns, canonicalStmt m x) →
      List.Pairwise (fun a b => sameRuntimeMod a b = false) ns →
      ∀ (c : ImportClause) (els : List ImportSpecifier) (text : String),
        Node.importDecl (some c) mod text ∈ ns →
        importGuards (some c) = .proceed c els → c.isTypeOnly = false →
        contribRuntime m mod ns = (partitionElements m els).1 := by
  intro ns
  induction ns with
  | nil =>
    intro _ _ c els text hmem
    cases hmem
  | cons x rest ih =>
    intro hcan hpw c els text hmem hg hty
    have hq : isQualifyingOf false mod (Node.importDecl (some c) mod text) = true := by
      simp [isQualifyingOf, hg, hty]
    rw [List.pairwise_cons] at hpw
    obtain ⟨hhead, htail⟩ := hpw
    cases hmem with
    | head =>
      have hrest : contribRuntime m mod rest = [] := by
        apply contribRuntime_nil_of m mod rest
          (fun z hz => hcan z (List.mem_cons_of_mem _ hz))
        intro y hy
        by_contra hyq
        have hyq2 : isQualifyingOf false mod y = true := by
          cases hq2 : isQualifyingOf false mod y
          · exact absurd hq2 hyq
          · rfl
        have hsame := sameRuntimeMod_of_both mod _ y hq hyq2
        rw [hhead y hy] at hsame
        cases hsame
      simp only [contribRuntime, hrest, List.append_nil]
      simp [bucketContrib, hg]
    | tail _ hmem2 =>
      have hxq : isQualifyingOf false mod x = false := by
        by_contra hxq1
        have hxq2 : isQualifyingOf false mod x = true := by
          cases hq2 : isQualifyingOf false mod x
          · exact absurd hq2 hxq1
          · rfl
        have hsame := sameRuntimeMod_of_both mod x _ hxq2 hq
        rw [hhead _ hmem2] at hsame
        cases hsame
      simp only [contribRuntime]
      rw [bucketContrib_runtime_nil m mod x (hcan x (List.mem_cons_self _ _)) hxq]
      rw [List.nil_append]
      exact ih (fun z hz => hcan z (List.mem_cons_of_mem _ hz)) htail c els text hmem2 hg hty

/-- The transformer succeeds on any import-free statement list. -/
theorem visitTList_importfree_ok :
    ∀ (k : Nat) (ns : List Node), nodeListSize ns ≤ k → ∀ pst : PartitionState,
      hasImportList ns = false → ∃ ts, visitTList pst ns = Except.ok ts := by
  intro k
  induction k with
  | zero =>
    intro ns hsz pst hfree
    cases ns with
    | nil => exact ⟨[], rfl⟩
    | cons n rest =>
      exfalso
      have := nodeSize_pos n
      simp only [nodeListSize] at hsz
      omega
  | succ k ih =>
    intro ns hsz pst hfree
    cases ns with
    | nil => exact ⟨[], rfl⟩
    | cons n rest =>
      simp only [hasImportList, Bool.or_eq_false_iff] at hfree
      obtain ⟨hf1, hf2⟩ := hfree
      have hszr : nodeListSize rest ≤ k := by
        have := nodeSize_pos n
        simp only [nodeListSize] at hsz
        omega
      obtain ⟨ts2, h2⟩ := ih rest hszr pst hf2
      have hhead : ∃ t, visitNode pst n = Except.ok [t] ∧ isImportT t = false := by
        cases n with
        | importDecl cl mo te => simp [hasImportNode] at hf1
        | ident s p => exact ⟨TNode.ident s p, rfl, rfl⟩
        | other cs =>
          have hszc : nodeListSize cs ≤ k := by
            simp only [nodeListSize, nodeSize] at hsz
            omega
          obtain ⟨ts1, h1⟩ := ih cs hszc pst (by simpa only [hasImportNode] using hf1)
          exact ⟨TNode.other ts1, by simp [visitNode, h1], rfl⟩
      obtain ⟨t, ht, htf⟩ := hhead
      exact ⟨[t] ++ ts2, by simp [visitTList, ht, h2]⟩

/-- The replacement loop ignores statements that are not import
declarations. -/
theorem applyStep_nonimport (sc : Bool) (st : List Replacement × List String) (t : TNode)
    (h : isImportT t = false) : applyStep sc st t = st := by
  cases t with
  | importDecl a b c d e => simp [isImportT] at h
  | ident s p => rfl
  | other cs => rfl

/-- A canonical statement transforms into a chunk whose replacement-loop fold
never records an edit (given, for a runtime import, the facts the main
theorem derives about the partition state). -/
theorem canonical_stmt_chunk (m : ImportsMap) (pst : PartitionState) (n : Node)
    (hcan : canonicalStmt m n)
    (hpst : ∀ (c : ImportClause) (els : List ImportSpecifier) (mod text : String),
      n = Node.importDecl (some c) mod text →
      importGuards (some c) = .proceed c els → c.isTypeOnly = false →
      ∃ tys, aget pst.importsBySpec mod =
          some (Buckets.mk (els.map (fun el => el.symbol)) tys) ∧
        (ahas pst.importDecls (mod ++ "-types") = true ∨ tys = [])) :
    ∃ out, visitNode pst n = Except.ok out ∧
      ∀ st : List Replacement × List String, (out.foldl (applyStep false) st).1 = st.1 := by
  rcases hcan with hfree | ⟨clause, mod, text, heq, hskip⟩ | ⟨c, els, mod, text, heq, hg, hsub⟩
  · have hone : ∃ t, visitNode pst n = Except.ok [t] ∧ isImportT t = false := by
      cases n with
      | importDecl cl mo te => simp [hasImportNode] at hfree
      | ident s p => exact ⟨TNode.ident s p, rfl, rfl⟩
      | other cs =>
        obtain ⟨ts1, h1⟩ := visitTList_importfree_ok (nodeListSize cs) cs (Nat.le_refl _) pst
          (by simpa only [hasImportNode] using hfree)
        exact ⟨TNode.other ts1, by simp [visitNode, h1], rfl⟩
    obtain ⟨t, ht, htf⟩ := hone
    refine ⟨[t], ht, fun st => ?_⟩
    simp [List.foldl_cons, applyStep_nonimport false st t htf]
  · subst heq
    exact ⟨[], visitNode_import_skip pst clause mod text hskip, fun st => rfl⟩
  · subst heq
    rcases hsub with ⟨hty, _⟩ | ⟨hty, hnil, hels, htext, hsemi⟩
    · exact ⟨[], visitNode_import_typeonly pst (some c) mod text c els hg hty, fun st => rfl⟩
    · obtain ⟨tys, hb, hdisj⟩ := hpst c els mod text rfl hg hty
      have hnz : ¬ (Buckets.mk (els.map (fun el => el.symbol)) tys).runtime.length = 0 := by
        simp [hnil]
      have hname : c.name = none := by
        cases hn : c.name with
        | none => rfl
        | some nm =>
          exfalso
          simp only [importGuards] at hg
          cases hnb : c.namedBindings with
          | none => rw [hnb] at hg; cases hg
          | some nb =>
            cases nb with
            | namespaceImport x => rw [hnb] at hg; cases hg
            | namedImports e =>
              rw [hnb] at hg
              rw [show c.name.isSome = true from by rw [hn]; rfl] at hg
              simp at hg
      have hcond : ¬ (ahas pst.importDecls (mod ++ "-types") = false ∧
          (Buckets.mk (els.map (fun el => el.symbol)) tys).types.length ≠ 0) := by
        rcases hdisj with hhas | hnilt
        · rintro ⟨hfalse, _⟩
          rw [hhas] at hfalse
          cases hfalse
        · rintro ⟨_, hlen⟩
          apply hlen
          simp [hnilt]
      rw [visitNode_import_runtime pst (some c) mod text c els _ hg hty hb hnz]
      rw [if_neg hcond]
      refine ⟨_, rfl, fun st => ?_⟩
      have hspecs : (Buckets.mk (els.map (fun el => el.symbol)) tys).runtime.map
          (fun sy => Spec.mk none sy.escapedName) =
          els.map (fun el => Spec.mk el.propertyName el.name) := by
        dsimp only
        rw [List.map_map]
        apply List.map_congr_left
        intro el hel
        obtain ⟨_, hprop, hname2⟩ := hels el hel
        simp [Function.comp, hprop, hname2]
      have hprint : printImport false c.name
          ((Buckets.mk (els.map (fun el => el.symbol)) tys).runtime.map
            (fun sy => Spec.mk none sy.escapedName)) mod = text ++ ";" := by
        rw [hspecs, hname, ← htext]
      simp only [List.foldl_cons, List.foldl_nil, applyStep]
      rw [hprint]
      rw [show nodeGetText (Node.importDecl (some c) mod text) = text from rfl]
      rw [if_neg (self_ne_append_semi text)]
      rw [show (if false = true then text ++ ";" else stripSemi (text ++ ";")) =
        stripSemi (text ++ ";") from rfl]
      rw [stripSemi_append_semi text hsemi]
      rw [if_neg (fun h : ¬ text = text => h rfl)]

/-- Chunks with the keep-replacements property assemble over `visitTList`. -/
theorem visit_chunks_assemble (pst : PartitionState) :
    ∀ ns : List Node,
      (∀ n ∈ ns, ∃ out, visitNode pst n = Except.ok out ∧
        ∀ st : List Replacement × List String, (out.foldl (applyStep false) st).1 = st.1) →
      ∃ ts, visitTList pst ns = Except.ok ts ∧
        ∀ st : List Replacement × List String, (ts.foldl (applyStep false) st).1 = st.1 := by
  intro ns
  induction ns with
  | nil => exact fun _ => ⟨[], rfl, fun st => rfl⟩
  | cons n rest ih =>
    intro h
    obtain ⟨out, hout, hkeep⟩ := h n (List.mem_cons_self _ _)
    obtain ⟨ts, hts, hkeep2⟩ := ih (fun x hx => h x (List.mem_cons_of_mem _ hx))
    refine ⟨out ++ ts, by simp [visitTList, hout, hts], fun st => ?_⟩
    rw [List.foldl_append, hkeep2, hkeep]

/-- A type-only qualifying import of `mod` records exactly the
`mod ++ "-types"` presence key. -/
theorem declKeyOf_of_typequal (mod : String) (y : Node)
    (h : isQualifyingOf true mod y = true) : declKeyOf y = some (mod ++ "-types") := by
  cases y with
  | ident s p => simp [isQualifyingOf] at h
  | other cs => simp [isQualifyingOf] at h
  | importDecl cl mo te =>
    simp only [isQualifyingOf, Bool.and_eq_true, decide_eq_true_eq] at h
    obtain ⟨h1, h2⟩ := h
    cases hg : importGuards cl with
    | typeError => rw [hg] at h1; cases h1
    | skip => rw [hg] at h1; cases h1
    | proceed c e =>
      rw [hg] at h1
      have hty : c.isTypeOnly = true := by simpa using h1
      subst h2
      simp [declKeyOf, hg, hty]

/-- C8 amended: idempotence on already-split input holds only under extra
conditions the claim leaves implicit.  If every top-level statement of the
file is canonical for the collected classification `m` (imports are maximally
split, runtime declarations are alias-free, non-empty, and formatted exactly
as the printer renders them minus the trailing semicolon) and no module
reference has two non-type-only import declarations, then the run (with the
semicolon flag off) records the empty replacement list and writes the file
text back unchanged. -/
theorem rewrite_canonical_split_identity (sf : SourceFile) (m : ImportsMap)
    (hc : collectList sf.statements [] = Except.ok m)
    (hcan : ∀ n ∈ sf.statements, canonicalStmt m n)
    (huniq : List.Pairwise (fun a b => sameRuntimeMod a b = false) sf.statements) :
    run false sf = Except.ok (sf.text, []) := by
  obtain ⟨pst, hpart⟩ := partitionList_ok m sf.statements hcan ⟨[], []⟩
  have hstmt : ∀ n ∈ sf.statements, ∃ out, visitNode pst n = Except.ok out ∧
      ∀ st : List Replacement × List String, (out.foldl (applyStep false) st).1 = st.1 := by
    intro n hn
    apply canonical_stmt_chunk m pst n (hcan n hn)
    intro c els mod text heq hg hty
    subst heq
    have hels : ∀ el ∈ els, aget m el.symbol.id = some Usage.valueUsed ∧
        el.propertyName = none ∧ el.name = el.symbol.escapedName := by
      rcases hcan _ hn with hfree | ⟨clause1, mod1, text1, heq1, hskip⟩ |
        ⟨c1, els1, mod1, text1, heq1, hg1, hsub⟩
      · simp [hasImportNode] at hfree
      · injection heq1 with h1 h2 h3
        rw [← h1] at hskip
        rw [hskip] at hg
        cases hg
      · injection heq1 with h1 h2 h3
        injection h1 with h4
        subst h4
        subst h2
        subst h3
        rw [hg1] at hg
        injection hg with h5 h6
        subst h6
        rcases hsub with ⟨hty1, _⟩ | ⟨_, _, hels1, _, _⟩
        · rw [hty1] at hty; cases hty
        · exact hels1
    have hbucket := partitionList_buckets m sf.statements ⟨[], []⟩ pst hpart mod
    have hnil : aget (PartitionState.mk [] []).importsBySpec mod = (none : Option Buckets) := rfl
    rw [hnil] at hbucket
    dsimp only at hbucket
    have htouch : (sf.statements.any (touches mod)) = true := by
      rw [List.any_eq_true]
      refine ⟨_, hn, ?_⟩
      simp [touches, hg]
    rw [if_pos htouch] at hbucket
    have hrt := contribRuntime_unique m mod sf.statements hcan huniq c els text hn hg hty
    have hpe : (partitionElements m els).1 = els.map (fun el => el.symbol) := by
      rw [partitionElements_spec]
      dsimp only
      rw [List.filter_eq_self.2 (fun el hel => by simp [(hels el hel).1])]
    refine ⟨contribTypes m mod sf.statements, ?_, ?_⟩
    · rw [hbucket, hrt, hpe]
    · cases hhas : ahas pst.importDecls (mod ++ "-types") with
      | true => exact Or.inl rfl
      | false =>
        refine Or.inr ?_
        have hdecls := partitionList_decls m sf.statements ⟨[], []⟩ pst hpart (mod ++ "-types")
        rw [hhas] at hdecls
        have hany : (sf.statements.any
            (fun n => decide (declKeyOf n = some (mod ++ "-types")))) = false := by
          have hfalse : ahas (PartitionState.mk [] []).importDecls (mod ++ "-types") = false := rfl
          rw [hfalse] at hdecls
          simpa using hdecls.symm
        apply contribTypes_nil_of m mod sf.statements hcan
        intro y hy
        cases hyq : isQualifyingOf true mod y with
        | false => rfl
        | true =>
          exfalso
          have hkey := declKeyOf_of_typequal mod y hyq
          rw [List.any_eq_false] at hany
          have := hany y hy
          simp [hkey] at this
  obtain ⟨ts, hts, hkeep⟩ := visit_chunks_assemble pst sf.statements hstmt
  have hreps : (ts.foldl (applyStep false) ([], [])).1 = ([] : List Replacement) :=
    hkeep ([], [])
  simp only [run, hc, hpart, hts, hreps]
  rfl

/-- C8 counterexample: `fileDup` is maximally split in the claim's sense —
both symbols are classified value-used (third conjunct) and each sits in a
non-type-only declaration — yet the run records two replacements and the
written file text differs from the input: each runtime import is rewritten to
the module's whole accumulated runtime bucket. -/
theorem idempotence_counterexample :
    run false fileDup =
      Except.ok
        ("import \x7b A, B \x7d from \"m\"\nimport \x7b A, B \x7d from \"m\"\nA()\nB()\n",
         [⟨"import \x7b A \x7d from \"m\"", "import \x7b A, B \x7d from \"m\""⟩,
          ⟨"import \x7b B \x7d from \"m\"", "import \x7b A, B \x7d from \"m\""⟩]) ∧
    ¬ ("import \x7b A, B \x7d from \"m\"\nimport \x7b A, B \x7d from \"m\"\nA()\nB()\n" =
        fileDup.text) ∧
    collectList fileDup.statements [] =
      Except.ok [(1, Usage.valueUsed), (2, Usage.valueUsed)] :=
  ⟨rfl, by decide, rfl⟩

/-- Witness for `rewrite_canonical_split_identity` on the canonical maximally
split file: zero edits, output identical to input. -/
theorem rewrite_canonical_split_identity_witness :
    run false fileCanonical = Except.ok (fileCanonical.text, []) := by
  refine rewrite_canonical_split_identity fileCanonical
    [(2, Usage.typeOnly), (1, Usage.valueUsed)] rfl ?_ ?_
  · intro n hn
    simp only [fileCanonical, List.mem_cons, List.mem_singleton,
      List.not_mem_nil, or_false] at hn
    rcases hn with rfl | rfl | rfl | rfl
    · exact Or.inr (Or.inr ⟨⟨true, none, some (.namedImports [⟨none, "T", ⟨2, "T"⟩⟩])⟩,
        [⟨none, "T", ⟨2, "T"⟩⟩], "\"m\"", "import type \x7b T \x7d from \"m\"",
        rfl, rfl, Or.inl ⟨rfl, by decide⟩⟩)
    · exact Or.inr (Or.inr ⟨⟨false, none, some (.namedImports [⟨none, "V", ⟨1, "V"⟩⟩])⟩,
        [⟨none, "V", ⟨1, "V"⟩⟩], "\"m\"", "import \x7b V \x7d from \"m\"",
        rfl, rfl, Or.inr ⟨rfl, by decide, by decide, rfl, by decide⟩⟩)
    · exact Or.inl rfl
    · exact Or.inl rfl
  · decide

end TSMI
